import Mathlib

set_option maxRecDepth 2000

/-!
Verification of the card-catalog synchronization pipeline of `card-craft`
(`internal/cards/mtg_importer.go`, `internal/database/transaction.go`,
`internal/scheduler/scheduler.go`, and the SQL migrations).

The Go code is shallowly embedded: pure computations become Lean functions,
the database becomes an explicit `Store` value threaded through the
operations, timestamps become `Int` values (only ever compared with
`time.Time.After`, i.e. `<`), and the nondeterminism of Go `select` is
resolved by explicit oracle parameters, so that one Lean evaluation is one
admissible execution of the Go program.

Layout:
* SHA-256 and the Go `encoding/json` marshalling of `CardSignature`
  (`CardSignature.Hash`, mtg_importer.go lines 866-887);
* the data model (`MTGAPICard`, the `cards` / `mtg_cards` tables);
* the classification phase of `processBatch` (lines 889-1159);
* the transaction phase of `processBatch` (lines 1161-1313) on top of
  `database.WithTransaction`;
* the `ImportBulkData` run model (lines 669-863): streaming decode, batch
  building, worker dispatch, cursor update and the summary arithmetic;
* `downloadBulkData` (lines 571-666) and the scheduler tick;
* one theorem (plus witness / counterexample) per specification claim.
-/

namespace CardCraft

/-! ### SHA-256, as in Go `crypto/sha256`

`CardSignature.Hash` computes `sha256.Sum256(json.Marshal(c))` and hex-encodes
it. SHA-256 is implemented here over byte lists, with 32-bit words as `Nat`
reduced modulo `2^32`. -/

/-- `2^32`, the modulus of 32-bit word arithmetic. -/
def M32 : Nat := 4294967296

/-- 32-bit rotate right. -/
def rotr32 (n x : Nat) : Nat := ((x >>> n) ||| (x <<< (32 - n))) % M32

/-- SHA-256 choice function `Ch(x,y,z)`. -/
def shaCh (x y z : Nat) : Nat := (x &&& y) ^^^ ((x ^^^ 4294967295) &&& z)

/-- SHA-256 majority function `Maj(x,y,z)`. -/
def shaMaj (x y z : Nat) : Nat := (x &&& y) ^^^ (x &&& z) ^^^ (y &&& z)

/-- SHA-256 `Σ₀`. -/
def bigSigma0 (x : Nat) : Nat := rotr32 2 x ^^^ rotr32 13 x ^^^ rotr32 22 x

/-- SHA-256 `Σ₁`. -/
def bigSigma1 (x : Nat) : Nat := rotr32 6 x ^^^ rotr32 11 x ^^^ rotr32 25 x

/-- SHA-256 `σ₀`. -/
def smallSigma0 (x : Nat) : Nat := rotr32 7 x ^^^ rotr32 18 x ^^^ (x >>> 3)

/-- SHA-256 `σ₁`. -/
def smallSigma1 (x : Nat) : Nat := rotr32 17 x ^^^ rotr32 19 x ^^^ (x >>> 10)

/-- The 64 SHA-256 round constants. -/
def shaK : List Nat :=
  [1116352408, 1899447441, 3049323471, 3921009573, 961987163, 1508970993,
   2453635748, 2870763221, 3624381080, 310598401, 607225278, 1426881987,
   1925078388, 2162078206, 2614888103, 3248222580, 3835390401, 4022224774,
   264347078, 604807628, 770255983, 1249150122, 1555081692, 1996064986,
   2554220882, 2821834349, 2952996808, 3210313671, 3336571891, 3584528711,
   113926993, 338241895, 666307205, 773529912, 1294757372, 1396182291,
   1695183700, 1986661051, 2177026350, 2456956037, 2730485921, 2820302411,
   3259730800, 3345764771, 3516065817, 3600352804, 4094571909, 275423344,
   430227734, 506948616, 659060556, 883997877, 958139571, 1322822218,
   1537002063, 1747873779, 1955562222, 2024104815, 2227730452, 2361852424,
   2428436474, 2756734187, 3204031479, 3329325298]

/-- The eight 32-bit working variables of the SHA-256 compression function. -/
structure ShaState where
  a : Nat
  b : Nat
  c : Nat
  d : Nat
  e : Nat
  f : Nat
  g : Nat
  h : Nat
  deriving Repr, DecidableEq

/-- SHA-256 initial hash value. -/
def shaInit : ShaState :=
  ⟨1779033703, 3144134277, 1013904242, 2773480762,
   1359893119, 2600822924, 528734635, 1541459225⟩

/-- One round of the SHA-256 compression function, consuming `(Kₜ, Wₜ)`. -/
def shaRound (s : ShaState) (kw : Nat × Nat) : ShaState :=
  let t1 := (s.h + bigSigma1 s.e + shaCh s.e s.f s.g + kw.1 + kw.2) % M32
  let t2 := (bigSigma0 s.a + shaMaj s.a s.b s.c) % M32
  ⟨(t1 + t2) % M32, s.a, s.b, s.c, (s.d + t1) % M32, s.e, s.f, s.g⟩

/-- Extend the message schedule by one word. -/
def scheduleStep (w : List Nat) : List Nat :=
  let i := w.length
  w ++ [(smallSigma1 (w.getD (i - 2) 0) + w.getD (i - 7) 0 +
         smallSigma0 (w.getD (i - 15) 0) + w.getD (i - 16) 0) % M32]

/-- The 64-word message schedule of a 16-word block. -/
def schedule (block : List Nat) : List Nat := scheduleStep^[48] block

/-- SHA-256 compression of one 16-word block into the running hash. -/
def compressBlock (hs : ShaState) (block : List Nat) : ShaState :=
  let ws := schedule block
  let s := (List.zip shaK ws).foldl shaRound hs
  ⟨(hs.a + s.a) % M32, (hs.b + s.b) % M32, (hs.c + s.c) % M32, (hs.d + s.d) % M32,
   (hs.e + s.e) % M32, (hs.f + s.f) % M32, (hs.g + s.g) % M32, (hs.h + s.h) % M32⟩

/-- SHA-256 padding: append `0x80`, zeros to 56 mod 64, and the 64-bit
big-endian bit length. -/
def padMessage (msg : List Nat) : List Nat :=
  let len := msg.length
  let z := (56 + 64 - (len + 1) % 64) % 64
  msg ++ [128] ++ List.replicate z 0 ++
    (List.range 8).map (fun i => (len * 8 >>> ((7 - i) * 8)) % 256)

/-- Group bytes into big-endian 32-bit words. -/
def bytesToWords : List Nat → List Nat
  | a :: b :: c :: d :: rest => (((a * 256 + b) * 256 + c) * 256 + d) :: bytesToWords rest
  | _ => []

/-- Group a word list into 16-word blocks (the input length is always a
multiple of 16 after padding). -/
def chunk16 : List Nat → List (List Nat)
  | w0 :: w1 :: w2 :: w3 :: w4 :: w5 :: w6 :: w7 ::
    w8 :: w9 :: w10 :: w11 :: w12 :: w13 :: w14 :: w15 :: rest =>
      [w0, w1, w2, w3, w4, w5, w6, w7, w8, w9, w10, w11, w12, w13, w14, w15] :: chunk16 rest
  | _ => []

/-- SHA-256 of a byte list, as the final state. -/
def sha256Bytes (msg : List Nat) : ShaState :=
  (chunk16 (bytesToWords (padMessage msg))).foldl compressBlock shaInit

/-- Lower-case hex digit. -/
def hexDigit (n : Nat) : Char :=
  if n = 0 then '0' else if n = 1 then '1' else if n = 2 then '2' else if n = 3 then '3'
  else if n = 4 then '4' else if n = 5 then '5' else if n = 6 then '6' else if n = 7 then '7'
  else if n = 8 then '8' else if n = 9 then '9' else if n = 10 then 'a' else if n = 11 then 'b'
  else if n = 12 then 'c' else if n = 13 then 'd' else if n = 14 then 'e' else 'f'

/-- Eight hex digits of one 32-bit word. -/
def hex8 (x : Nat) : String :=
  String.mk ((List.range 8).map (fun i => hexDigit ((x >>> ((7 - i) * 4)) % 16)))

/-- SHA-256 of a byte list, hex encoded — Go
`hex.EncodeToString(sha256.Sum256(data))`. -/
def sha256Hex (msg : List Nat) : String :=
  let s := sha256Bytes msg
  hex8 s.a ++ hex8 s.b ++ hex8 s.c ++ hex8 s.d ++ hex8 s.e ++ hex8 s.f ++ hex8 s.g ++ hex8 s.h

/-- Bytes of a string. All strings appearing in this development are ASCII,
where UTF-8 bytes coincide with code points. -/
def strBytes (s : String) : List Nat := s.data.map Char.toNat

/-- Sanity check of the SHA-256 embedding against the standard test vector
for `"abc"`. -/
theorem sha256Hex_abc :
    sha256Hex (strBytes "abc") =
      "ba7816bf8f01cfea414140de5dae2223b00361a396177a9cb410ff61f20015ad" := by
  decide

/-! ### Go `encoding/json` marshalling of `CardSignature`

`json.Marshal` on the `CardSignature` struct (mtg_importer.go lines 866-887)
emits the fields in declaration order with their json tags, marshals string
slices in element order, and marshals `map[string]string` with its keys
sorted lexicographically. Go maps have no key order and no duplicate keys, so
the legality map is embedded as an association list whose key list is
`Nodup`; a map value is marshalled through its sorted key list, making the
encoding independent of the list order. Braces are written `\x7b`/`\x7d`. -/

/-- Go `encoding/json` escaping of one character (with the default HTML
escaping of `<`, `>`, `&`). -/
def jsonEscapeChar (c : Char) : List Char :=
  if c = '"' then ['\\', '"']
  else if c = '\\' then ['\\', '\\']
  else if c = '\n' then ['\\', 'n']
  else if c = '\r' then ['\\', 'r']
  else if c = '\t' then ['\\', 't']
  else if c = '<' then ['\\', 'u', '0', '0', '3', 'c']
  else if c = '>' then ['\\', 'u', '0', '0', '3', 'e']
  else if c = '&' then ['\\', 'u', '0', '0', '2', '6']
  else if c.toNat < 32 then ['\\', 'u', '0', '0', hexDigit (c.toNat / 16), hexDigit (c.toNat % 16)]
  else [c]

/-- JSON string literal. -/
def encString (s : String) : String :=
  "\"" ++ String.mk ((s.data.map jsonEscapeChar).flatten) ++ "\""

/-- Comma-join. -/
def joinComma : List String → String
  | [] => ""
  | [s] => s
  | s :: rest => s ++ "," ++ joinComma rest

/-- JSON array of strings (a non-nil Go `[]string`). -/
def encStringList (l : List String) : String :=
  "[" ++ joinComma (l.map encString) ++ "]"

/-- First value stored under key `k` (Go map access; key lists are `Nodup`
for values that come from a Go map). -/
def lookupVal (l : List (String × String)) (k : String) : String :=
  match l.find? (fun p => p.1 == k) with
  | some p => p.2
  | none => ""

/-- JSON object for a Go `map[string]string`: keys sorted lexicographically,
as `encoding/json` does. -/
def encLegalities (l : List (String × String)) : String :=
  let keys := List.insertionSort (· ≤ ·) (l.map Prod.fst)
  "\x7b" ++ joinComma (keys.map (fun k => encString k ++ ":" ++ encString (lookupVal l k))) ++ "\x7d"

/-- `CardSignature` (mtg_importer.go lines 867-881): the fields that decide
whether a card needs updating. The `legalities` map is an association list
with `Nodup` keys. -/
structure CardSignature where
  name : String
  setName : String
  rarity : String
  imageURL : String
  manaCost : String
  typeLine : String
  oracleText : String
  power : String
  toughness : String
  loyalty : String
  colors : List String
  keywords : List String
  legalities : List (String × String)
  deriving Repr, DecidableEq

/-- `json.Marshal` of a `CardSignature`, following the struct tags and field
order of the Go type. -/
def encodeSignature (s : CardSignature) : String :=
  "\x7b\"name\":" ++ encString s.name ++
  ",\"setName\":" ++ encString s.setName ++
  ",\"rarity\":" ++ encString s.rarity ++
  ",\"imageUrl\":" ++ encString s.imageURL ++
  ",\"manaCost\":" ++ encString s.manaCost ++
  ",\"typeLine\":" ++ encString s.typeLine ++
  ",\"oracleText\":" ++ encString s.oracleText ++
  ",\"power\":" ++ encString s.power ++
  ",\"toughness\":" ++ encString s.toughness ++
  ",\"loyalty\":" ++ encString s.loyalty ++
  ",\"colors\":" ++ encStringList s.colors ++
  ",\"keywords\":" ++ encStringList s.keywords ++
  ",\"legalities\":" ++ encLegalities s.legalities ++ "\x7d"

/-- `CardSignature.Hash` (mtg_importer.go lines 883-887):
`hex(sha256(json.Marshal(c)))`. -/
def CardSignature.Hash (s : CardSignature) : String :=
  sha256Hex (strBytes (encodeSignature s))

/-! ### Data model

Timestamps are `Int`; the code compares them only with `time.Time.After`
(strict `<`) and never does arithmetic on them. A Scryfall record
(`MTGAPICard`, mtg_importer.go lines 1356-1387) is embedded with the fields
the pipeline reads; its two date *strings* are embedded by their
`time.Parse` results, `none` standing for an empty or unparseable string
(both take the `time.Now()` fallback in `processBatch`). Payload fields that
are copied verbatim but never compared, branched on, or hashed by the
pipeline (`cmc`, `color_identity`, the boolean flags, `set_type`, the small
image URI) are elided. -/

/-- Incoming Scryfall record. -/
structure MTGAPICard where
  name : String
  set : String
  setName : String
  collectorNumber : String
  rarity : String
  imageLarge : String
  manaCost : String
  typeLine : String
  oracleText : String
  power : String
  toughness : String
  loyalty : String
  colors : List String
  keywords : List String
  legalities : List (String × String)
  updatedAt : Option Int
  releasedAt : Option Int
  deriving Repr, DecidableEq

/-- A row of the `cards` table (`types.Card`). The table has
`id UUID PRIMARY KEY` (embedded as `Nat`) and
`CREATE UNIQUE INDEX idx_cards_unique ON cards(game, set_code, number)`. -/
structure CardRow where
  id : Nat
  name : String
  game : String
  setCode : String
  setName : String
  number : String
  rarity : String
  imageURL : String
  createdAt : Int
  updatedAt : Int
  deriving Repr, DecidableEq

/-- A row of the `mtg_cards` table (`MTGCard`), keyed by `card_id`
referencing `cards(id)`; fields not read back by the pipeline are elided as
for `MTGAPICard`. -/
structure MtgRow where
  manaCost : String
  typeLine : String
  oracleText : String
  power : String
  toughness : String
  loyalty : String
  colors : List String
  keywords : List String
  legalities : List (String × String)
  releasedAt : Int
  deriving Repr, DecidableEq

/-- An `mtg_cards` row together with its `card_id` foreign key. -/
structure MtgEntry where
  cardId : Nat
  row : MtgRow
  deriving Repr, DecidableEq

/-- The database state seen by the importer: the `cards` table and the
`mtg_cards` table. -/
structure Store where
  cards : List CardRow
  mtgs : List MtgEntry
  deriving Repr, DecidableEq

/-- The natural key `(game, set_code, number)` of a catalog row. -/
def natKey (r : CardRow) : String × String × String := (r.game, r.setCode, r.number)

/-- The empty database. -/
def emptyStore : Store := ⟨[], []⟩

/-- The existing-row lookup of `processBatch` (mtg_importer.go lines
908-1022): one query selects `cards LEFT JOIN mtg_cards` for every natural
key of the batch; scanning fills `cardMap` and records rows whose `mtg_id`
is NULL in `missingMtgCards`. Embedded per key: the `cards` row matching
`game = mtg` and the key, joined with the `mtg_cards` row whose `card_id`
matches (`none` when that row is missing). -/
def storeFind (st : Store) (set num : String) : Option (CardRow × Option MtgRow) :=
  match st.cards.find? (fun r => r.game == "mtg" && r.setCode == set && r.number == num) with
  | none => none
  | some r => some (r, (st.mtgs.find? (fun e => e.cardId == r.id)).map MtgEntry.row)

/-! ### `processBatch`, classification phase (mtg_importer.go lines 1024-1159) -/

/-- The base `types.Card` built for an incoming record (lines 1052-1061);
`ID` and `CreatedAt` are filled in by the create/update branches. -/
def mkBaseCard (now : Int) (c : MTGAPICard) : CardRow :=
  { id := 0, name := c.name, game := "mtg", setCode := c.set, setName := c.setName,
    number := c.collectorNumber, rarity := c.rarity, imageURL := c.imageLarge,
    createdAt := 0, updatedAt := now }

/-- The `MTGCard` built for an incoming record (lines 1063-1091); a
release date that fails to parse is logged and replaced by `time.Now()`. -/
def mkMtgRow (now : Int) (c : MTGAPICard) : MtgRow :=
  { manaCost := c.manaCost, typeLine := c.typeLine, oracleText := c.oracleText,
    power := c.power, toughness := c.toughness, loyalty := c.loyalty,
    colors := c.colors, keywords := c.keywords, legalities := c.legalities,
    releasedAt := c.releasedAt.getD now }

/-- `newSignature` (lines 1114-1128), built from the incoming record. -/
def sigOfCard (c : MTGAPICard) : CardSignature :=
  { name := c.name, setName := c.setName, rarity := c.rarity, imageURL := c.imageLarge,
    manaCost := c.manaCost, typeLine := c.typeLine, oracleText := c.oracleText,
    power := c.power, toughness := c.toughness, loyalty := c.loyalty,
    colors := c.colors, keywords := c.keywords, legalities := c.legalities }

/-- `existingSignature` (lines 1131-1145), built from the stored base row
and its reconstructed `mtg_cards` row. -/
def sigOfExisting (r : CardRow) (m : MtgRow) : CardSignature :=
  { name := r.name, setName := r.setName, rarity := r.rarity, imageURL := r.imageURL,
    manaCost := m.manaCost, typeLine := m.typeLine, oracleText := m.oracleText,
    power := m.power, toughness := m.toughness, loyalty := m.loyalty,
    colors := m.colors, keywords := m.keywords, legalities := m.legalities }

/-- What the per-card body of the classification loop decides. -/
inductive CardAction
  | skipInvalid
  | skipCursor
  | skipUnchanged
  | create (base : CardRow) (mtg : MtgEntry)
  | healMtg (mtg : MtgEntry)
  | update (base : CardRow) (mtg : MtgEntry)
  deriving Repr, DecidableEq

/-- The incremental-import short-circuit (lines 1044-1046):
`lastImport != nil && !updatedAt.After(*lastImport)`. -/
def cursorSkip (lastImport : Option Int) (updatedAt : Int) : Bool :=
  match lastImport with
  | some li => decide (updatedAt ≤ li)
  | none => false

/-- One iteration of the classification loop (lines 1025-1158). `newId`
models the `uuid.New()` drawn if this card is created. -/
def classifyCard (st : Store) (lastImport : Option Int) (now : Int) (newId : Nat)
    (card : MTGAPICard) : CardAction :=
  if card.set = "" ∨ card.collectorNumber = "" then .skipInvalid
  else
    let updatedAt := card.updatedAt.getD now
    if cursorSkip lastImport updatedAt then .skipCursor
    else
      let baseCard := mkBaseCard now card
      let mtgCard := mkMtgRow now card
      match storeFind st card.set card.collectorNumber with
      | none =>
          .create { baseCard with id := newId, createdAt := now } ⟨newId, mtgCard⟩
      | some (existing, mtgOpt) =>
          match mtgOpt with
          | none => .healMtg ⟨existing.id, mtgCard⟩
          | some em =>
              if (sigOfCard card).Hash = (sigOfExisting existing em).Hash
              then .skipUnchanged
              else .update { baseCard with id := existing.id, createdAt := existing.createdAt }
                     ⟨existing.id, mtgCard⟩

/-- The four accumulating lists of `processBatch`. -/
structure ClassifyResult where
  cardsToCreate : List CardRow
  cardsToUpdate : List CardRow
  mtgCardsToCreate : List MtgEntry
  mtgCardsToUpdate : List MtgEntry
  deriving Repr, DecidableEq

/-- Empty accumulator. -/
def emptyClassify : ClassifyResult := ⟨[], [], [], []⟩

/-- The lists one action appends. -/
def actionResult : CardAction → ClassifyResult
  | .create b m => ⟨[b], [], [m], []⟩
  | .healMtg m => ⟨[], [], [m], []⟩
  | .update b m => ⟨[], [b], [], [m]⟩
  | _ => emptyClassify

/-- Concatenation of accumulators. -/
def appendClassify (r₁ r₂ : ClassifyResult) : ClassifyResult :=
  ⟨r₁.cardsToCreate ++ r₂.cardsToCreate, r₁.cardsToUpdate ++ r₂.cardsToUpdate,
   r₁.mtgCardsToCreate ++ r₂.mtgCardsToCreate, r₁.mtgCardsToUpdate ++ r₂.mtgCardsToUpdate⟩

/-- The classification loop over a batch. All lookups read the one snapshot
taken by the batch query; `idBase` numbers the `uuid.New()` draws. -/
def classifyBatch (st : Store) (lastImport : Option Int) (now : Int) :
    Nat → List MTGAPICard → ClassifyResult
  | _, [] => emptyClassify
  | idBase, c :: rest =>
      appendClassify (actionResult (classifyCard st lastImport now idBase c))
        (classifyBatch st lastImport now (idBase + 1) rest)

/-! ### `processBatch`, transaction phase (mtg_importer.go lines 1161-1313)

The batch writes run inside `database.WithTransaction`
(internal/database/transaction.go lines 49-72): the body either succeeds and
the new state commits, or returns an error and the state rolls back to the
one at `Begin`. An `INSERT INTO cards` is checked against the schema
constraints `cards_pkey` (`id UUID PRIMARY KEY`) and `idx_cards_unique`
(`UNIQUE (game, set_code, number)`, migration 000005); a violated constraint
fails the statement and hence the transaction. -/

/-- `INSERT INTO cards ...` (lines 1166-1186) under the table constraints. -/
def insertCardRow (st : Store) (c : CardRow) : Except String Store :=
  if st.cards.any (fun r => r.id == c.id) then
    .error "failed to create card: cards_pkey"
  else if st.cards.any (fun r => r.game == c.game && r.setCode == c.setCode && r.number == c.number) then
    .error "failed to create card: idx_cards_unique"
  else
    .ok { st with cards := st.cards ++ [c] }

/-- The create-cards loop. -/
def insertCards : Store → List CardRow → Except String Store
  | st, [] => .ok st
  | st, c :: rest => do insertCards (← insertCardRow st c) rest

/-- `INSERT INTO mtg_cards ...` (lines 1189-1236); the visible schema puts
no unique constraint on `card_id`, so the inserts always append. -/
def insertMtgRows (st : Store) (l : List MtgEntry) : Store :=
  { st with mtgs := st.mtgs ++ l }

/-- The effect of the card UPDATE statement on a matched row: every column
of the SET list (lines 1242-1244) takes the new value; `id` and
`created_at` are not in the SET list. -/
def updRow (r u : CardRow) : CardRow :=
  { r with name := u.name, game := u.game, setCode := u.setCode, setName := u.setName,
           number := u.number, rarity := u.rarity, imageURL := u.imageURL,
           updatedAt := u.updatedAt }

/-- `UPDATE cards SET ... WHERE id = $9` (lines 1241-1261): every row with
this `id` takes the new field values. -/
def updateCardRow (st : Store) (c : CardRow) : Store :=
  { st with cards := st.cards.map (fun r => if r.id == c.id then updRow r c else r) }

/-- The update-cards loop. -/
def updateCards (st : Store) (l : List CardRow) : Store := l.foldl updateCardRow st

/-- `UPDATE mtg_cards SET ... WHERE card_id = $21` (lines 1267-1306). -/
def updateMtgRow (st : Store) (m : MtgEntry) : Store :=
  { st with mtgs := st.mtgs.map (fun e => if e.cardId == m.cardId then m else e) }

/-- The update-mtg-cards loop. -/
def updateMtgs (st : Store) (l : List MtgEntry) : Store := l.foldl updateMtgRow st

/-- The transaction body (lines 1162-1310), in statement order: create base
cards, create mtg rows, update base cards, update mtg rows. `txFail`
injects an external storage failure of the transaction. -/
def txBody (res : ClassifyResult) (txFail : Bool) (st : Store) : Except String Store :=
  if txFail then .error "storage failure"
  else do
    let st₁ ← insertCards st res.cardsToCreate
    let st₂ := insertMtgRows st₁ res.mtgCardsToCreate
    let st₃ := updateCards st₂ res.cardsToUpdate
    .ok (updateMtgs st₃ res.mtgCardsToUpdate)

/-- `database.WithTransaction` (transaction.go lines 49-72): commit on
success, roll back to the initial state on error. -/
def withTransaction (st : Store) (body : Store → Except String Store) : Store × Option String :=
  match body st with
  | .ok st₂ => (st₂, none)
  | .error e => (st, some e)

/-- What `processBatch` returns, plus the database state it leaves. -/
structure BatchResult where
  created : Nat
  updated : Nat
  err : Option String
  store : Store
  deriving Repr, DecidableEq

/-- `processBatch` (lines 889-1313). `lookupFail` injects a failure of the
existing-rows query (line 930 returns `0, 0, err` before any write);
otherwise the batch is classified and applied in one transaction, and the
function returns `len(cardsToCreate), len(cardsToUpdate), err`
(line 1312) whatever the transaction outcome was. -/
def processBatch (st : Store) (lastImport : Option Int) (now : Int) (idBase : Nat)
    (lookupFail txFail : Bool) (batch : List MTGAPICard) : BatchResult :=
  if lookupFail then ⟨0, 0, some "failed to query existing cards", st⟩
  else
    let res := classifyBatch st lastImport now idBase batch
    let w := withTransaction st (txBody res txFail)
    ⟨res.cardsToCreate.length, res.cardsToUpdate.length, w.2, w.1⟩

/-! ### `ImportBulkData` (mtg_importer.go lines 669-863)

The run decodes the stream one element at a time (`decoder.More()` /
`decoder.Decode`, lines 716-734), accumulating every batch into the
`batches` slice before any worker starts; it then dispatches the batches to
8 workers over a channel of capacity 16, aggregates worker stats, writes the
cursor of the import, and logs a summary whose average computations divide by the
batch and card counts.

Concurrency is embedded as one admissible linearization per oracle
valuation: batches take effect in dispatch order, a worker error from batch
`k` is available on `errorChan` from dispatch step `k+1` on, and the Go
`select` between a ready send and a ready error receive (lines 818-826 and
832-839) is resolved by `pickErr` / `pickFinal`. -/

/-- A decoded stream element: `none` is an element on which
`decoder.Decode(&card)` fails. -/
def DecodedStream : Type := List (Option MTGAPICard)

/-- The decode loop; the first malformed element makes the whole run return
`failed to decode card` (line 719). -/
def decodeStream : List (Option MTGAPICard) → Except String (List MTGAPICard)
  | [] => .ok []
  | none :: _ => .error "failed to decode card"
  | some c :: rest => (decodeStream rest).map (c :: ·)

/-- `batchSize` (line 704). -/
def batchSize : Nat := 100

/-- `numWorkers` (line 705). -/
def numWorkers : Nat := 8

/-- The capacity of `batchChan` (line 746): `numWorkers * 2`. -/
def batchQueueDepth : Nat := numWorkers * 2

/-- The batch-building loop (lines 716-739): append to `currentBatch`,
flush at `batchSize`, append the final partial batch. -/
def buildBatchesAux (batches : List (List MTGAPICard)) (current : List MTGAPICard) :
    List MTGAPICard → List (List MTGAPICard)
  | [] => if current.length > 0 then batches ++ [current] else batches
  | c :: rest =>
      let cur := current ++ [c]
      if cur.length ≥ batchSize then buildBatchesAux (batches ++ [cur]) [] rest
      else buildBatchesAux batches cur rest

/-- All batches of a decoded card list, fully materialized before dispatch
starts (lines 709-743: `Build all batches first`). -/
def buildBatches (cards : List MTGAPICard) : List (List MTGAPICard) :=
  buildBatchesAux [] [] cards

/-- Outcome of the dispatch loop. -/
structure DispatchResult where
  store : Store
  abortErr : Option String
  dispatched : Nat
  pending : List String
  inserted : Nat
  updated : Nat
  deriving Repr, DecidableEq

/-- The dispatch loop (lines 818-826) together with the workers it feeds:
before sending batch `k` the coordinator may instead receive a pending
worker error (`pickErr k`) and return it; otherwise the batch is processed
(worker body, lines 758-782), its error — wrapped
`failed to process batch: ...` — joins the pending errors, and its stats are
reported whether or not it failed. -/
def dispatchAux (lastImport : Option Int) (now : Int) (lookupFailAt txFailAt : Nat → Bool)
    (pickErr : Nat → Bool) :
    Store → Nat → Nat → List String → Nat → Nat → List (List MTGAPICard) → DispatchResult
  | st, k, _, pending, ins, upd, [] => ⟨st, none, k, pending, ins, upd⟩
  | st, k, idBase, pending, ins, upd, b :: rest =>
      match pending, pickErr k with
      | e :: _, true => ⟨st, some e, k, pending, ins, upd⟩
      | _, _ =>
          let r := processBatch st lastImport now idBase (lookupFailAt k) (txFailAt k) b
          dispatchAux lastImport now lookupFailAt txFailAt pickErr r.store (k + 1)
            (idBase + b.length)
            (pending ++ (r.err.map (fun e => "failed to process batch: " ++ e)).toList)
            (ins + r.created) (upd + r.updated) rest

/-- Go integer division of `time.Duration` values: dividing by zero panics
(`runtime error: integer divide by zero`). -/
def goDiv (a : Int) (b : Nat) : Except String Int :=
  if b = 0 then .error "runtime error: integer divide by zero" else .ok (a / b)

/-- The summary logging (lines 849-861): the average-per-batch and
average-per-card lines divide the durations by `len(batches)` and by
`processedCards`. -/
def importSummary (processDuration totalDuration : Int) (numBatches numCards : Nat) :
    Except String Unit := do
  _ ← goDiv processDuration numBatches
  _ ← goDiv totalDuration numCards
  .ok ()

/-- What a run of `ImportBulkData` did. -/
structure RunResult where
  store : Store
  cursorWrite : Option Int
  result : Except String Unit
  batchesBuilt : List (List MTGAPICard)
  dispatched : Nat
  inserted : Nat
  updated : Nat
  deriving Repr

/-- The part of `ImportBulkData` after a fully-successful decode: build all
batches, dispatch them, and — unless a worker error was received at a
dispatch step or at the final wait — write the cursor and log the summary.
The cursor write (line 845) precedes the summary divisions (lines 860-861). -/
def importAfterDecode (cards : List MTGAPICard) (st : Store) (lastImport : Option Int)
    (now endTime : Int) (idBase : Nat) (lookupFailAt txFailAt : Nat → Bool)
    (pickErr : Nat → Bool) (pickFinal : Bool) : RunResult :=
  let batches := buildBatches cards
  let d := dispatchAux lastImport now lookupFailAt txFailAt pickErr st 0 idBase [] 0 0 batches
  match d.abortErr with
  | some e =>
      ⟨d.store, none, .error ("worker error: " ++ e), batches, d.dispatched, d.inserted, d.updated⟩
  | none =>
      match d.pending, pickFinal with
      | e :: _, true =>
          ⟨d.store, none, .error ("worker error: " ++ e), batches, d.dispatched,
           d.inserted, d.updated⟩
      | _, _ =>
          match importSummary (endTime - now) (endTime - now) batches.length cards.length with
          | .error e =>
              ⟨d.store, some endTime, .error e, batches, d.dispatched, d.inserted, d.updated⟩
          | .ok _ => ⟨d.store, some endTime, .ok (), batches, d.dispatched, d.inserted, d.updated⟩

/-- `ImportBulkData` (lines 669-863). `lastImport` is the stored cursor read
at the start; `now` stands for the `time.Now()` values drawn while
processing and `endTime` for the one written to `mtg_import_status`
(line 845, `updateLastImportTimestamp(ctx, time.Now())`); `idBase` numbers
the `uuid.New()` draws; the remaining arguments resolve injected storage
failures and `select` choices. -/
def importBulkData (stream : List (Option MTGAPICard)) (st : Store) (lastImport : Option Int)
    (now endTime : Int) (idBase : Nat) (lookupFailAt txFailAt : Nat → Bool)
    (pickErr : Nat → Bool) (pickFinal : Bool) : RunResult :=
  match decodeStream stream with
  | .error e => ⟨st, none, .error e, [], 0, 0, 0⟩
  | .ok cards =>
      importAfterDecode cards st lastImport now endTime idBase lookupFailAt txFailAt pickErr pickFinal

/-! ### `downloadBulkData` (mtg_importer.go lines 571-666) and the scheduler -/

/-- Trace of one `downloadBulkData` call. -/
structure DownloadResult where
  attempts : Nat
  sleeps : List Nat
  failuresLogged : Nat
  ok : Bool
  deriving Repr, DecidableEq

/-- The retry loop (lines 598-665): `maxRetries = 3`, `backoff = 2s`; before
retry `r > 0` it sleeps `backoff` and doubles it; a failed attempt logs the
status and body and continues; a successful attempt returns. The fuel is
`maxRetries - retry`. -/
def downloadAux (attemptOK : Nat → Bool) :
    Nat → Nat → Nat → List Nat → Nat → DownloadResult
  | 0, retry, _, sleeps, logged => ⟨retry, sleeps, logged, false⟩
  | fuel + 1, retry, backoff, sleeps, logged =>
      let backoff₂ := if retry > 0 then backoff * 2 else backoff
      let sleeps₂ := if retry > 0 then sleeps ++ [backoff] else sleeps
      if attemptOK retry then ⟨retry + 1, sleeps₂, logged, true⟩
      else downloadAux attemptOK fuel (retry + 1) backoff₂ sleeps₂ (logged + 1)

/-- `downloadBulkData`: a cache file younger than 24h is served without any
HTTP attempt (lines 582-596); otherwise the retry loop runs with
`maxRetries = 3` and initial backoff 2 seconds, and exhausting it returns
the error `failed to download bulk data after 3 attempts`. -/
def downloadBulkData (cacheFresh : Bool) (attemptOK : Nat → Bool) : DownloadResult :=
  if cacheFresh then ⟨0, [], 0, true⟩ else downloadAux attemptOK 3 0 2 [] 0

/-- The scheduler tick `importCards` (scheduler.go lines 53-62): it loops
over all importers and `continue`s past one whose import failed, so the
number of importers attempted never depends on the failures. Inputs are the
per-importer outcomes; the result counts the importers attempted. -/
def importCardsAttempted : List Bool → Nat
  | [] => 0
  | _ :: rest => 1 + importCardsAttempted rest

/-! ### Invariants and concrete fixtures -/

/-- No two `cards` rows share the natural key `(game, set_code, number)`. -/
def NoDupNatKeys (st : Store) : Prop := (st.cards.map natKey).Nodup

/-- No two `cards` rows share an `id` (the `cards_pkey` invariant). -/
def NoDupIds (st : Store) : Prop := (st.cards.map CardRow.id).Nodup

/-- A record none of whose fields is set; `set` and `collectorNumber` are
empty, so the classification loop skips it as invalid. -/
def blankCard : MTGAPICard :=
  { name := "", set := "", setName := "", collectorNumber := "", rarity := "",
    imageLarge := "", manaCost := "", typeLine := "", oracleText := "", power := "",
    toughness := "", loyalty := "", colors := [], keywords := [], legalities := [],
    updatedAt := none, releasedAt := none }

/-- A well-formed stream of 2500 records: 25 batches of 100. -/
def hugeStream : List (Option MTGAPICard) := List.replicate 2500 (some blankCard)

/-- A well-formed stream of 101 records: 2 batches (100 / 1). -/
def twoBatchStream : List (Option MTGAPICard) := List.replicate 101 (some blankCard)

/-- A signature whose colors are `["W", "U"]`. -/
def sigColorsWU : CardSignature :=
  { name := "A", setName := "", rarity := "", imageURL := "", manaCost := "",
    typeLine := "", oracleText := "", power := "", toughness := "", loyalty := "",
    colors := ["W", "U"], keywords := [], legalities := [] }

/-- The same field values with the colors listed in the other order. -/
def sigColorsUW : CardSignature := { sigColorsWU with colors := ["U", "W"] }

/-- A stored base row named `Old` whose `mtg_cards` row is missing. -/
def healBaseRow : CardRow :=
  { id := 1, name := "Old", game := "mtg", setCode := "abc", setName := "",
    number := "1", rarity := "", imageURL := "", createdAt := 0, updatedAt := 0 }

/-- A catalog holding only `healBaseRow`, with no `mtg_cards` rows. -/
def healStore : Store := ⟨[healBaseRow], []⟩

/-- The incoming record for `healBaseRow`'s natural key: renamed to `New`,
with an unparseable `updated_at` string. -/
def healCard : MTGAPICard := { blankCard with name := "New", set := "abc", collectorNumber := "1" }

/-- A record with a valid natural key whose `updated_at` string fails to
parse (`updatedAt = none`). -/
def badDateCard : MTGAPICard := { blankCard with set := "abc", collectorNumber := "7" }

/-- The pair `(id, natural key)` of every catalog row, in table order. The
update statements can change neither component (`UPDATE ... WHERE id` keeps
`id`, and only rewrites the key fields of the row that was matched by that
same key). -/
def keyIdMap (st : Store) : List (Nat × (String × String × String)) :=
  st.cards.map (fun r => (r.id, natKey r))

/-- An update row produced by the classification loop: its `id` and natural
key are those of a row present in the queried snapshot. -/
def MatchedUpdate (st : Store) (u : CardRow) : Prop := (u.id, natKey u) ∈ keyIdMap st

/-- The batch-validity test of the classification loop (line 1027),
as a Bool. -/
def validB (c : MTGAPICard) : Bool := !(c.set == "" || c.collectorNumber == "")

/-- The natural key of an incoming record (its game is always `mtg`). -/
def keyOf (c : MTGAPICard) : String × String := (c.set, c.collectorNumber)

/-- The natural keys of the valid records of a dataset, in order. -/
def validKeys (l : List MTGAPICard) : List (String × String) := (l.filter validB).map keyOf

/-- The record's stored image is up to date: the lookup finds a base row
with its `mtg_cards` row, and the stored signature hashes like the incoming
one — exactly the condition under which the classification loop skips the
record as unchanged. -/
def Established (st : Store) (c : MTGAPICard) : Prop :=
  ∃ r m, storeFind st c.set c.collectorNumber = some (r, some m) ∧
    (sigOfCard c).Hash = (sigOfExisting r m).Hash

/-- Every base row has its `mtg_cards` row (no self-heal is pending). -/
def AllMtgPresent (st : Store) : Prop := ∀ r ∈ st.cards, ∃ e ∈ st.mtgs, e.cardId = r.id

/-- Well-formedness of the database against the schema plus freshness of the
`uuid.New()` supply: unique natural keys (`idx_cards_unique`), unique ids
(`cards_pkey`), every id below the next uuid to be drawn, every `mtg_cards`
row referencing an existing base row (its foreign key), and one `mtg_cards`
row per base row. -/
def StoreWF (st : Store) (bound : Nat) : Prop :=
  NoDupNatKeys st ∧ NoDupIds st ∧ (∀ r ∈ st.cards, r.id < bound) ∧
  (∀ e ∈ st.mtgs, ∃ r ∈ st.cards, r.id = e.cardId) ∧ (st.mtgs.map MtgEntry.cardId).Nodup

/-- The record is dropped by the incremental-import short-circuit. -/
def cursorSkipped (li : Option Int) (now : Int) (c : MTGAPICard) : Prop :=
  cursorSkip li (c.updatedAt.getD now) = true

/-- The pointwise effect of the card-update loop on one stored row. -/
def applyCardUpdates (l : List CardRow) (r : CardRow) : CardRow :=
  l.foldl (fun r u => if r.id == u.id then updRow r u else r) r

/-- The pointwise effect of the mtg-update loop on one entry. -/
def applyMtgUpdates (l : List MtgEntry) (e : MtgEntry) : MtgEntry :=
  l.foldl (fun e m => if e.cardId == m.cardId then m else e) e

/-- A signature with a two-entry legality map. -/
def legSig : CardSignature :=
  { sigColorsWU with colors := [], legalities := [("modern", "banned"), ("standard", "legal")] }

/-- The same legality map listed in the other order. -/
def legSigPerm : List (String × String) := [("standard", "legal"), ("modern", "banned")]

/-! ## Helper lemmas -/

theorem decodeStream_map_some (l : List MTGAPICard) : decodeStream (l.map some) = .ok l := by
  induction l with
  | nil => rfl
  | cons c rest ih => simp [decodeStream, ih, Except.map]

theorem decodeStream_of_mem_none {stream : List (Option MTGAPICard)} (h : none ∈ stream) :
    decodeStream stream = .error "failed to decode card" := by
  induction stream with
  | nil => cases h
  | cons o rest ih =>
      cases o with
      | none => rfl
      | some c =>
          have hrest : none ∈ rest := by
            rcases List.mem_cons.mp h with h₁ | h₂
            · exact absurd h₁ (by simp)
            · exact h₂
          simp [decodeStream, ih hrest, Except.map]

theorem buildBatchesAux_length (l : List MTGAPICard) :
    ∀ (b : List (List MTGAPICard)) (cur : List MTGAPICard), cur.length ≤ 99 →
      (buildBatchesAux b cur l).length = b.length + (cur.length + l.length + 99) / 100 := by
  induction l with
  | nil =>
      intro b cur h
      simp only [buildBatchesAux]
      split <;> rename_i hc <;> simp only [List.length_append, List.length_cons,
        List.length_nil] <;> omega
  | cons c rest ih =>
      intro b cur h
      simp only [buildBatchesAux]
      split <;> rename_i hc
      · rw [ih (b ++ [cur ++ [c]]) [] (by simp)]
        simp only [batchSize, List.length_append, List.length_cons, List.length_nil] at hc ⊢
        omega
      · rw [ih b (cur ++ [c]) (by
          simp only [batchSize, List.length_append, List.length_cons, List.length_nil] at hc ⊢
          omega)]
        simp only [List.length_append, List.length_cons, List.length_nil]
        omega

theorem buildBatchesAux_flatten (l : List MTGAPICard) :
    ∀ (b : List (List MTGAPICard)) (cur : List MTGAPICard),
      (buildBatchesAux b cur l).flatten = b.flatten ++ cur ++ l := by
  induction l with
  | nil =>
      intro b cur
      simp only [buildBatchesAux]
      split <;> rename_i hc
      · simp
      · have : cur = [] := List.length_eq_zero.mp (by omega)
        simp [this]
  | cons c rest ih =>
      intro b cur
      simp only [buildBatchesAux]
      split <;> rename_i hc
      · rw [ih]; simp
      · rw [ih]; simp

theorem importAfterDecode_batchesBuilt (cards : List MTGAPICard) (st : Store)
    (li : Option Int) (now endTime : Int) (i : Nat) (lf tf pe : Nat → Bool) (pf : Bool) :
    (importAfterDecode cards st li now endTime i lf tf pe pf).batchesBuilt =
      buildBatches cards := by
  unfold importAfterDecode
  dsimp only
  repeat' split <;> try rfl

theorem importAfterDecode_cursorWrite (cards : List MTGAPICard) (st : Store)
    (li : Option Int) (now endTime : Int) (i : Nat) (lf tf pe : Nat → Bool) (pf : Bool) :
    (importAfterDecode cards st li now endTime i lf tf pe pf).cursorWrite = none ∨
      (importAfterDecode cards st li now endTime i lf tf pe pf).cursorWrite = some endTime := by
  unfold importAfterDecode
  dsimp only
  repeat' split
  all_goals first
    | exact Or.inl rfl
    | exact Or.inr rfl

theorem importCardsAttempted_eq_length (rs : List Bool) : importCardsAttempted rs = rs.length := by
  induction rs with
  | nil => rfl
  | cons r rest ih => simp [importCardsAttempted, ih]; omega

/-! ## Claim theorems -/

/-- C1 (corrected). The dataset is decoded one element at a time, but
`ImportBulkData` materializes every batch of the whole dataset in memory
before dispatching any of them: the batch list built before dispatch
flattens back to the entire decoded dataset and has `⌈N / 100⌉` entries, a
number bounded by the dataset size, not by the queue depth plus the worker
count. -/
theorem C1_backpressure (stream : List (Option MTGAPICard)) (cards : List MTGAPICard)
    (st : Store) (li : Option Int) (now endTime : Int) (i : Nat) (lf tf pe : Nat → Bool)
    (pf : Bool) (h : decodeStream stream = .ok cards) :
    (importBulkData stream st li now endTime i lf tf pe pf).batchesBuilt.flatten = cards ∧
    (importBulkData stream st li now endTime i lf tf pe pf).batchesBuilt.length =
      (cards.length + 99) / 100 := by
  have hb : (importBulkData stream st li now endTime i lf tf pe pf).batchesBuilt =
      buildBatches cards := by
    unfold importBulkData
    rw [h]
    exact importAfterDecode_batchesBuilt cards st li now endTime i lf tf pe pf
  rw [hb]
  constructor
  · simpa [buildBatches] using buildBatchesAux_flatten cards [] []
  · simpa [buildBatches] using buildBatchesAux_length cards [] [] (by simp)

/-- Witness for C1: on a one-record stream the built batches flatten back to
the decoded dataset. -/
theorem C1_backpressure_witness :
    decodeStream [some blankCard] = .ok [blankCard] ∧
    (importBulkData [some blankCard] emptyStore none 0 1 0 (fun _ => false) (fun _ => false)
        (fun _ => false) false).batchesBuilt.flatten = [blankCard] :=
  ⟨rfl, (C1_backpressure [some blankCard] [blankCard] emptyStore none 0 1 0 (fun _ => false)
      (fun _ => false) (fun _ => false) false rfl).1⟩

/-- C1 counterexample. A run over a 2500-record dataset holds 25 undispatched
batches in memory when the dispatch phase starts, exceeding the claimed
bound `Q + W = 16 + 8 = 24`. -/
theorem C1_backpressure_counterexample :
    (importBulkData hugeStream emptyStore none 0 1 0 (fun _ => false) (fun _ => false)
        (fun _ => false) false).batchesBuilt.length = 25 ∧
    ¬ ((importBulkData hugeStream emptyStore none 0 1 0 (fun _ => false) (fun _ => false)
        (fun _ => false) false).batchesBuilt.length ≤ batchQueueDepth + numWorkers) := by
  have hdec : decodeStream hugeStream = .ok (List.replicate 2500 blankCard) := by
    have h₁ : hugeStream = (List.replicate 2500 blankCard).map some := by
      rw [List.map_replicate]; rfl
    rw [h₁, decodeStream_map_some]
  have hb : (importBulkData hugeStream emptyStore none 0 1 0 (fun _ => false) (fun _ => false)
      (fun _ => false) false).batchesBuilt = buildBatches (List.replicate 2500 blankCard) := by
    unfold importBulkData
    rw [hdec]
    exact importAfterDecode_batchesBuilt (List.replicate 2500 blankCard) emptyStore none 0 1 0
      (fun _ => false) (fun _ => false) (fun _ => false) false
  have h25 : (buildBatches (List.replicate 2500 blankCard)).length = 25 := by
    have hlen := buildBatchesAux_length (List.replicate 2500 blankCard) [] [] (by simp)
    rw [List.length_replicate] at hlen
    have harith : ([] : List (List MTGAPICard)).length +
        (([] : List MTGAPICard).length + 2500 + 99) / 100 = 25 := by norm_num
    rw [harith] at hlen
    exact hlen
  rw [hb, h25]
  exact ⟨rfl, by decide⟩

/-- C7 (corrected). A record whose `updated_at` or `released_at` fails to
parse is not skipped: the failure is logged and the parse result is replaced
by `time.Now()`, after which classification proceeds exactly as if the
provider had stamped the record with the current time. -/
theorem C7_badDates (st : Store) (li : Option Int) (now : Int) (i : Nat) (c : MTGAPICard) :
    classifyCard st li now i { c with updatedAt := none } =
      classifyCard st li now i { c with updatedAt := some now } ∧
    classifyCard st li now i { c with releasedAt := none } =
      classifyCard st li now i { c with releasedAt := some now } :=
  ⟨rfl, rfl⟩

/-- C7 counterexample. A record with a valid natural key and an unparseable
`updated_at` is classified for creation — it is not skipped and no
validation-failure count records it. -/
theorem C7_badDates_counterexample :
    badDateCard.updatedAt = none ∧
    (classifyBatch emptyStore (some 5) 10 0 [badDateCard]).cardsToCreate ≠ [] := by
  exact ⟨rfl, by decide⟩

/-- C8 (confirmed). `downloadBulkData` makes at most 3 HTTP attempts; when
the cache is stale and every attempt fails it sleeps 2s then 4s between
attempts, logs each of the 3 failures, and returns an error; the scheduler
tick attempts every remaining source regardless of such failures. -/
theorem C8_downloadRetries (cacheFresh : Bool) (attemptOK : Nat → Bool) (rs : List Bool) :
    (downloadBulkData cacheFresh attemptOK).attempts ≤ 3 ∧
    (cacheFresh = false → (∀ k, attemptOK k = false) →
      downloadBulkData cacheFresh attemptOK = ⟨3, [2, 4], 3, false⟩) ∧
    importCardsAttempted rs = rs.length := by
  refine ⟨?_, ?_, importCardsAttempted_eq_length rs⟩
  · cases cacheFresh
    · cases h0 : attemptOK 0 <;> cases h1 : attemptOK 1 <;> cases h2 : attemptOK 2 <;>
        simp [downloadBulkData, downloadAux, h0, h1, h2]
    · simp [downloadBulkData]
  · intro hc hall
    subst hc
    simp [downloadBulkData, downloadAux, hall 0, hall 1, hall 2]

/-- Witness for C8: with a stale cache and all attempts failing, the
download makes exactly 3 attempts, sleeps 2s and 4s, and fails. -/
theorem C8_downloadRetries_witness :
    downloadBulkData false (fun _ => false) = ⟨3, [2, 4], 3, false⟩ ∧
    importCardsAttempted [true, false] = 2 :=
  ⟨(C8_downloadRetries false (fun _ => false) [true, false]).2.1 rfl (fun _ => rfl),
   (C8_downloadRetries false (fun _ => false) [true, false]).2.2⟩

/-- C9 (confirmed). On an empty top-level array, `ImportBulkData` builds
zero batches, and after writing the cursor the summary logging divides the
processing duration by the number of batches — a division by zero that
panics the run instead of returning a zero-count success. -/
theorem C9_emptyDatasetPanics (st : Store) (li : Option Int) (now endTime : Int) (i : Nat)
    (lf tf pe : Nat → Bool) (pf : Bool) :
    (importBulkData [] st li now endTime i lf tf pe pf).result =
      .error "runtime error: integer divide by zero" ∧
    (importBulkData [] st li now endTime i lf tf pe pf).batchesBuilt = [] :=
  ⟨rfl, rfl⟩

/-- C10 (confirmed). `processBatch` returns `len(cardsToCreate)` and
`len(cardsToUpdate)` whatever the transaction did; with an injected
transaction failure it returns the same counts next to the error while the
store rolls back, and the dispatch loop still adds those counts to the run
totals — the aggregated totals count attempted rows, not committed rows. -/
theorem C10_countsAttempted (st : Store) (li : Option Int) (now : Int) (i : Nat) (tf : Bool)
    (b : List MTGAPICard) :
    (processBatch st li now i false tf b).created =
      (classifyBatch st li now i b).cardsToCreate.length ∧
    (processBatch st li now i false tf b).updated =
      (classifyBatch st li now i b).cardsToUpdate.length ∧
    (processBatch st li now i false true b).err = some "storage failure" ∧
    (dispatchAux li now (fun _ => false) (fun _ => true) (fun _ => false) st 0 i [] 0 0
        [b]).inserted = (classifyBatch st li now i b).cardsToCreate.length ∧
    (dispatchAux li now (fun _ => false) (fun _ => true) (fun _ => false) st 0 i [] 0 0
        [b]).updated = (classifyBatch st li now i b).cardsToUpdate.length ∧
    (dispatchAux li now (fun _ => false) (fun _ => true) (fun _ => false) st 0 i [] 0 0
        [b]).store = st := by
  refine ⟨rfl, rfl, rfl, ?_, ?_, rfl⟩ <;>
    simp [dispatchAux, processBatch, withTransaction, txBody]

theorem find_key_of_perm {l₁ l₂ : List (String × String)} (hp : l₁.Perm l₂)
    (hn : (l₁.map Prod.fst).Nodup) (k : String) :
    l₁.find? (fun p => p.1 == k) = l₂.find? (fun p => p.1 == k) := by
  cases h₁ : l₁.find? (fun p => p.1 == k) with
  | none =>
      cases h₂ : l₂.find? (fun p => p.1 == k) with
      | none => rfl
      | some q =>
          have hq := List.find?_some h₂
          have hqm₁ : q ∈ l₁ := hp.symm.subset (List.mem_of_find?_eq_some h₂)
          exact absurd hq (List.find?_eq_none.mp h₁ q hqm₁)
  | some p =>
      have hpk := List.find?_some h₁
      have hpm := List.mem_of_find?_eq_some h₁
      cases h₂ : l₂.find? (fun x => x.1 == k) with
      | none =>
          exact absurd hpk (List.find?_eq_none.mp h₂ p (hp.subset hpm))
      | some q =>
          have hqk := List.find?_some h₂
          have hqm₁ : q ∈ l₁ := hp.symm.subset (List.mem_of_find?_eq_some h₂)
          have hkeq : p.1 = q.1 := by
            have e₁ : p.1 = k := by simpa using hpk
            have e₂ : q.1 = k := by simpa using hqk
            rw [e₁, e₂]
          rw [List.inj_on_of_nodup_map hn hpm hqm₁ hkeq]

theorem encLegalities_perm {l₁ l₂ : List (String × String)} (hp : l₁.Perm l₂)
    (hn : (l₁.map Prod.fst).Nodup) : encLegalities l₁ = encLegalities l₂ := by
  unfold encLegalities
  have hkeys : List.insertionSort (· ≤ ·) (l₁.map Prod.fst) =
      List.insertionSort (· ≤ ·) (l₂.map Prod.fst) := by
    have hperm : (List.insertionSort (· ≤ ·) (l₁.map Prod.fst)).Perm
        (List.insertionSort (· ≤ ·) (l₂.map Prod.fst)) :=
      (List.perm_insertionSort _ _).trans
        ((hp.map Prod.fst).trans (List.perm_insertionSort _ _).symm)
    exact List.eq_of_perm_of_sorted hperm (List.sorted_insertionSort _ _)
      (List.sorted_insertionSort _ _)
  have hval : ∀ k, lookupVal l₁ k = lookupVal l₂ k := by
    intro k
    unfold lookupVal
    rw [find_key_of_perm hp hn k]
  rw [hkeys]
  simp only [hval]

/-- C3 (corrected). `CardSignature.Hash` is unchanged when the legality map
of a record lists its keys in a different order: `json.Marshal` writes map
keys sorted, so any permutation of a `Nodup`-keyed legality list yields the
same marshalled bytes and the same SHA-256 hash. (Per the counterexample,
the same is false for the `colors`/`keywords` arrays.) -/
theorem C3_signatureStability (s : CardSignature) (l₂ : List (String × String))
    (hp : s.legalities.Perm l₂) (hn : (s.legalities.map Prod.fst).Nodup) :
    CardSignature.Hash { s with legalities := l₂ } = s.Hash := by
  unfold CardSignature.Hash
  have hn₂ : (l₂.map Prod.fst).Nodup := ((hp.map Prod.fst).nodup_iff).mp hn
  have henc : encodeSignature { s with legalities := l₂ } = encodeSignature s := by
    unfold encodeSignature
    dsimp only
    rw [encLegalities_perm hp.symm hn₂]
  rw [henc]

/-- Witness for C3: the two orderings of a two-entry legality map hash
identically. -/
theorem C3_signatureStability_witness :
    legSig.legalities.Perm legSigPerm ∧
    CardSignature.Hash { legSig with legalities := legSigPerm } = legSig.Hash :=
  ⟨by decide, C3_signatureStability legSig legSigPerm (by decide) (by decide)⟩

/-- C3 counterexample. Two signatures with the same field values whose
`colors` arrays list the same set in different orders hash differently, so
reordered string sets do change the `CardSignature`. -/
theorem C3_signatureStability_counterexample :
    sigColorsWU.colors.Perm sigColorsUW.colors ∧
    sigColorsWU.name = sigColorsUW.name ∧
    sigColorsWU.setName = sigColorsUW.setName ∧
    sigColorsWU.rarity = sigColorsUW.rarity ∧
    sigColorsWU.imageURL = sigColorsUW.imageURL ∧
    sigColorsWU.manaCost = sigColorsUW.manaCost ∧
    sigColorsWU.typeLine = sigColorsUW.typeLine ∧
    sigColorsWU.oracleText = sigColorsUW.oracleText ∧
    sigColorsWU.power = sigColorsUW.power ∧
    sigColorsWU.toughness = sigColorsUW.toughness ∧
    sigColorsWU.loyalty = sigColorsUW.loyalty ∧
    sigColorsWU.keywords = sigColorsUW.keywords ∧
    sigColorsWU.legalities = sigColorsUW.legalities ∧
    sigColorsWU.Hash ≠ sigColorsUW.Hash := by
  refine ⟨by decide, rfl, rfl, rfl, rfl, rfl, rfl, rfl, rfl, rfl, rfl, rfl, rfl, ?_⟩
  decide

/-- C2 (corrected). When a batch fails at the storage layer — the
existing-row lookup query or the batch transaction — only that batch's
writes are rolled back: `processBatch` returns with the store exactly as it
was when the batch began. (Per the counterexample, the run does *not*
always continue: the coordinator aborts on a received worker error.) -/
theorem C2_batchFailureIsolation (st : Store) (li : Option Int) (now : Int) (i : Nat)
    (lf tf : Bool) (b : List MTGAPICard) (e : String)
    (h : (processBatch st li now i lf tf b).err = some e) :
    (processBatch st li now i lf tf b).store = st := by
  cases lf
  case true => rfl
  case false =>
      unfold processBatch withTransaction at h ⊢
      dsimp only at h ⊢
      cases htx : txBody (classifyBatch st li now i b) tf st with
      | ok s =>
          rw [htx] at h
          exact absurd h (by simp)
      | error e₂ => rfl

/-- Witness for C2: a failed lookup leaves the store untouched. -/
theorem C2_batchFailureIsolation_witness :
    (processBatch emptyStore none 0 0 true false []).err =
      some "failed to query existing cards" ∧
    (processBatch emptyStore none 0 0 true false []).store = emptyStore :=
  ⟨rfl, C2_batchFailureIsolation emptyStore none 0 0 true false [] _ rfl⟩

/-- C2 counterexample. In a 2-batch run whose first batch fails its lookup
query, the coordinator receives the worker error at the next dispatch step
and aborts the whole run: the second batch is never dispatched, so one
batch's storage failure does abort the run. -/
theorem C2_runAborts_counterexample :
    (importBulkData twoBatchStream emptyStore none 0 1 0 (fun k => k == 0) (fun _ => false)
        (fun k => k == 1) false).result =
      .error "worker error: failed to process batch: failed to query existing cards" ∧
    (importBulkData twoBatchStream emptyStore none 0 1 0 (fun k => k == 0) (fun _ => false)
        (fun k => k == 1) false).batchesBuilt.length = 2 ∧
    (importBulkData twoBatchStream emptyStore none 0 1 0 (fun k => k == 0) (fun _ => false)
        (fun k => k == 1) false).dispatched = 1 ∧
    (importBulkData twoBatchStream emptyStore none 0 1 0 (fun k => k == 0) (fun _ => false)
        (fun k => k == 1) false).store = emptyStore :=
  ⟨rfl, rfl, rfl, rfl⟩

/-- C5 (confirmed). The cursor is written only by a run with no decode-stage
fatal error — a malformed element aborts the run before any cursor write —
and a written cursor always carries the run-end `time.Now()`, which is ≥
the previous cursor whenever the clock did not run backwards. -/
theorem C5_cursorMonotonic (stream : List (Option MTGAPICard)) (st : Store) (li : Option Int)
    (now endTime : Int) (i : Nat) (lf tf pe : Nat → Bool) (pf : Bool) :
    (none ∈ stream →
      (importBulkData stream st li now endTime i lf tf pe pf).cursorWrite = none ∧
      (importBulkData stream st li now endTime i lf tf pe pf).result =
        .error "failed to decode card") ∧
    (∀ v, (importBulkData stream st li now endTime i lf tf pe pf).cursorWrite = some v →
      v = endTime ∧ ∀ p, li = some p → p ≤ endTime → p ≤ v) := by
  constructor
  · intro hmem
    have hd := decodeStream_of_mem_none hmem
    unfold importBulkData
    rw [hd]
    exact ⟨rfl, rfl⟩
  · intro v hv
    have hend : v = endTime := by
      unfold importBulkData at hv
      cases hdec : decodeStream stream with
      | error e =>
          rw [hdec] at hv
          exact absurd hv (by simp)
      | ok cards =>
          rw [hdec] at hv
          rcases importAfterDecode_cursorWrite cards st li now endTime i lf tf pe pf with hc | hc
          · rw [hc] at hv
            exact absurd hv (by simp)
          · rw [hc] at hv
            exact (Option.some.inj hv).symm
    exact ⟨hend, fun p _ hple => hend ▸ hple⟩

theorem insertCardRow_ok_cards {st : Store} {c : CardRow} {st₂ : Store}
    (h : insertCardRow st c = .ok st₂) :
    st₂.cards = st.cards ++ [c] ∧ st₂.mtgs = st.mtgs ∧
    (∀ r ∈ st.cards, r.id ≠ c.id) ∧ (∀ r ∈ st.cards, natKey r ≠ natKey c) := by
  unfold insertCardRow at h
  split at h
  · exact absurd h (by simp)
  · split at h
    · exact absurd h (by simp)
    · rename_i hid hkey
      injection h with h₂
      subst h₂
      refine ⟨rfl, rfl, ?_, ?_⟩
      · intro r hr heq
        exact hid (List.any_eq_true.mpr ⟨r, hr, by simp [heq]⟩)
      · intro r hr heq
        simp only [natKey, Prod.mk.injEq] at heq
        exact hkey (List.any_eq_true.mpr ⟨r, hr, by
          simp [heq.1, heq.2.1, heq.2.2]⟩)

theorem insertCards_ok_inv :
    ∀ (l : List CardRow) (st st₂ : Store), insertCards st l = .ok st₂ →
      NoDupNatKeys st → NoDupIds st →
      NoDupNatKeys st₂ ∧ NoDupIds st₂ ∧ st₂.mtgs = st.mtgs ∧
        ∃ l₂, st₂.cards = st.cards ++ l₂
  | [], st, st₂, h, h₁, h₂ => by
      unfold insertCards at h
      injection h with h₃
      subst h₃
      exact ⟨h₁, h₂, rfl, [], by simp⟩
  | c :: rest, st, st₂, h, h₁, h₂ => by
      unfold insertCards at h
      cases hic : insertCardRow st c with
      | error e =>
          rw [hic] at h
          exact absurd h (by simp [Bind.bind, Except.bind])
      | ok s =>
          rw [hic] at h
          simp only [Bind.bind, Except.bind] at h
          obtain ⟨hc, hm, hids, hkeys⟩ := insertCardRow_ok_cards hic
          have h₁s : NoDupNatKeys s := by
            unfold NoDupNatKeys at h₁ ⊢
            rw [hc, List.map_append]
            refine List.nodup_append.mpr ⟨h₁, by simp, ?_⟩
            intro k hk1 hk2
            simp only [List.map_cons, List.map_nil, List.mem_singleton] at hk2
            obtain ⟨r, hr, hkr⟩ := List.mem_map.mp hk1
            exact hkeys r hr (hkr.trans hk2)
          have h₂s : NoDupIds s := by
            unfold NoDupIds at h₂ ⊢
            rw [hc, List.map_append]
            refine List.nodup_append.mpr ⟨h₂, by simp, ?_⟩
            intro k hk1 hk2
            simp only [List.map_cons, List.map_nil, List.mem_singleton] at hk2
            obtain ⟨r, hr, hkr⟩ := List.mem_map.mp hk1
            exact hids r hr (hkr.trans hk2)
          obtain ⟨hn₁, hn₂, hms, l₂, hcs⟩ := insertCards_ok_inv rest s st₂ h h₁s h₂s
          exact ⟨hn₁, hn₂, hms.trans hm, [c] ++ l₂, by rw [hcs, hc, List.append_assoc]⟩

theorem ids_eq_of_keyIdMap_eq {st st₂ : Store} (h : keyIdMap st₂ = keyIdMap st) :
    st₂.cards.map CardRow.id = st.cards.map CardRow.id := by
  have h₁ : ∀ s : Store, s.cards.map CardRow.id = (keyIdMap s).map Prod.fst := by
    intro s
    unfold keyIdMap
    rw [List.map_map]
    rfl
  rw [h₁, h₁, h]

theorem natKeys_eq_of_keyIdMap_eq {st st₂ : Store} (h : keyIdMap st₂ = keyIdMap st) :
    st₂.cards.map natKey = st.cards.map natKey := by
  have h₁ : ∀ s : Store, s.cards.map natKey = (keyIdMap s).map Prod.snd := by
    intro s
    unfold keyIdMap
    rw [List.map_map]
    rfl
  rw [h₁, h₁, h]

theorem updateCardRow_keyIdMap {st : Store} {u : CardRow} (h₂ : NoDupIds st)
    (hm : MatchedUpdate st u) : keyIdMap (updateCardRow st u) = keyIdMap st := by
  obtain ⟨row, hrow, hpair⟩ := List.mem_map.mp hm
  simp only [Prod.mk.injEq] at hpair
  unfold keyIdMap updateCardRow
  rw [List.map_map]
  apply List.map_congr_left
  intro r hr
  simp only [Function.comp]
  by_cases hid : (r.id == u.id) = true
  · rw [if_pos hid]
    simp only [beq_iff_eq] at hid
    have hreq : r = row := by
      apply List.inj_on_of_nodup_map h₂ hr hrow
      rw [hid, hpair.1]
    subst hreq
    have hk : natKey u = natKey r := by rw [← hpair.2]
    simp only [natKey, Prod.mk.injEq] at hk
    simp [natKey, updRow, hid, hk.1, hk.2.1, hk.2.2]
  · rw [if_neg hid]

theorem updateCards_keyIdMap :
    ∀ (l : List CardRow) (st : Store), NoDupIds st → (∀ u ∈ l, MatchedUpdate st u) →
      keyIdMap (updateCards st l) = keyIdMap st
  | [], st, _, _ => rfl
  | u :: rest, st, h₂, hm => by
      have hstep : updateCards st (u :: rest) = updateCards (updateCardRow st u) rest := rfl
      rw [hstep]
      have hk := updateCardRow_keyIdMap h₂ (hm u (by simp))
      have h₂s : NoDupIds (updateCardRow st u) := by
        unfold NoDupIds at h₂ ⊢
        rw [ids_eq_of_keyIdMap_eq hk]
        exact h₂
      have hms : ∀ v ∈ rest, MatchedUpdate (updateCardRow st u) v := by
        intro v hv
        unfold MatchedUpdate
        rw [hk]
        exact hm v (by simp [hv])
      rw [updateCards_keyIdMap rest (updateCardRow st u) h₂s hms, hk]

theorem updateMtgs_cards (st : Store) :
    ∀ l : List MtgEntry, (updateMtgs st l).cards = st.cards := by
  intro l
  induction l generalizing st with
  | nil => rfl
  | cons m rest ih =>
      have hstep : updateMtgs st (m :: rest) = updateMtgs (updateMtgRow st m) rest := rfl
      rw [hstep, ih]
      rfl

theorem storeFind_some_mem {st : Store} {set num : String} {r : CardRow} {mo : Option MtgRow}
    (h : storeFind st set num = some (r, mo)) :
    r ∈ st.cards ∧ r.game = "mtg" ∧ r.setCode = set ∧ r.number = num := by
  unfold storeFind at h
  cases hf : st.cards.find? (fun q => q.game == "mtg" && q.setCode == set && q.number == num) with
  | none => rw [hf] at h; cases h
  | some q =>
      rw [hf] at h
      injection h with h₂
      have hmem := List.mem_of_find?_eq_some hf
      have hpred := List.find?_some hf
      simp only [Bool.and_eq_true, beq_iff_eq] at hpred
      have hq : q = r := congrArg Prod.fst h₂
      subst hq
      exact ⟨hmem, hpred.1.1, hpred.1.2, hpred.2⟩

theorem classifyCard_update_matched {st : Store} {li : Option Int} {now : Int} {i : Nat}
    {c : MTGAPICard} {bb : CardRow} {mm : MtgEntry}
    (h : classifyCard st li now i c = .update bb mm) : MatchedUpdate st bb := by
  unfold classifyCard at h
  split at h
  · simp at h
  · dsimp only at h
    split at h
    · simp at h
    · cases hfind : storeFind st c.set c.collectorNumber with
      | none => rw [hfind] at h; simp at h
      | some pr =>
          obtain ⟨r, mo⟩ := pr
          rw [hfind] at h
          cases mo with
          | none => simp at h
          | some em =>
              dsimp only at h
              split at h
              · simp at h
              · obtain ⟨hmem, hg, hs, hn⟩ := storeFind_some_mem hfind
                injection h with h₁ h₂
                unfold MatchedUpdate keyIdMap
                apply List.mem_map.mpr
                refine ⟨r, hmem, ?_⟩
                rw [← h₁]
                simp [natKey, mkBaseCard, hg, hs, hn]

theorem classifyBatch_updates_matched (st : Store) (li : Option Int) (now : Int) :
    ∀ (i : Nat) (b : List MTGAPICard), ∀ u ∈ (classifyBatch st li now i b).cardsToUpdate,
      MatchedUpdate st u
  | _, [] => by simp [classifyBatch, emptyClassify]
  | i, c :: rest => by
      intro u hu
      unfold classifyBatch at hu
      simp only [appendClassify] at hu
      rcases List.mem_append.mp hu with h₁ | h₂
      · cases hact : classifyCard st li now i c with
        | update bb mm =>
            rw [hact] at h₁
            simp only [actionResult, List.mem_singleton] at h₁
            subst h₁
            exact classifyCard_update_matched hact
        | skipInvalid => rw [hact] at h₁; simp [actionResult, emptyClassify] at h₁
        | skipCursor => rw [hact] at h₁; simp [actionResult, emptyClassify] at h₁
        | skipUnchanged => rw [hact] at h₁; simp [actionResult, emptyClassify] at h₁
        | create b m => rw [hact] at h₁; simp [actionResult] at h₁
        | healMtg m => rw [hact] at h₁; simp [actionResult] at h₁
      · exact classifyBatch_updates_matched st li now (i + 1) rest u h₂

theorem txBody_ok_NoDup {res : ClassifyResult} {tf : Bool} {st st₂ : Store}
    (h : txBody res tf st = .ok st₂) (h₁ : NoDupNatKeys st) (h₂ : NoDupIds st)
    (hm : ∀ u ∈ res.cardsToUpdate, MatchedUpdate st u) :
    NoDupNatKeys st₂ ∧ NoDupIds st₂ := by
  unfold txBody at h
  split at h
  · exact absurd h (by simp)
  · cases hic : insertCards st res.cardsToCreate with
    | error e =>
        rw [hic] at h
        exact absurd h (by simp [Bind.bind, Except.bind])
    | ok s₁ =>
        rw [hic] at h
        simp only [Bind.bind, Except.bind] at h
        injection h with h₃
        obtain ⟨hn₁, hn₂, hms, l₂, hcs⟩ := insertCards_ok_inv _ _ _ hic h₁ h₂
        have hins : (insertMtgRows s₁ res.mtgCardsToCreate).cards = s₁.cards := rfl
        have hids₂ : NoDupIds (insertMtgRows s₁ res.mtgCardsToCreate) := hn₂
        have hmatch₂ : ∀ u ∈ res.cardsToUpdate,
            MatchedUpdate (insertMtgRows s₁ res.mtgCardsToCreate) u := by
          intro u hu
          have hmu := hm u hu
          unfold MatchedUpdate keyIdMap at hmu ⊢
          rw [hins, hcs, List.map_append]
          exact List.mem_append_left _ hmu
        have hkd := updateCards_keyIdMap res.cardsToUpdate _ hids₂ hmatch₂
        subst h₃
        constructor
        · unfold NoDupNatKeys
          rw [updateMtgs_cards, natKeys_eq_of_keyIdMap_eq hkd]
          exact hn₁
        · unfold NoDupIds
          rw [updateMtgs_cards, ids_eq_of_keyIdMap_eq hkd]
          exact hn₂

theorem processBatch_NoDup (st : Store) (li : Option Int) (now : Int) (i : Nat)
    (lf tf : Bool) (b : List MTGAPICard) (h₁ : NoDupNatKeys st) (h₂ : NoDupIds st) :
    NoDupNatKeys (processBatch st li now i lf tf b).store ∧
    NoDupIds (processBatch st li now i lf tf b).store := by
  cases lf
  case true => exact ⟨h₁, h₂⟩
  case false =>
      unfold processBatch withTransaction
      dsimp only
      cases htx : txBody (classifyBatch st li now i b) tf st with
      | ok s =>
          exact txBody_ok_NoDup htx h₁ h₂ (classifyBatch_updates_matched st li now i b)
      | error e => exact ⟨h₁, h₂⟩

theorem dispatchAux_NoDup (li : Option Int) (now : Int) (lf tf pe : Nat → Bool) :
    ∀ (batches : List (List MTGAPICard)) (st : Store) (k i : Nat) (pending : List String)
      (ins upd : Nat), NoDupNatKeys st → NoDupIds st →
      NoDupNatKeys (dispatchAux li now lf tf pe st k i pending ins upd batches).store ∧
      NoDupIds (dispatchAux li now lf tf pe st k i pending ins upd batches).store
  | [], _, _, _, _, _, _, h₁, h₂ => ⟨h₁, h₂⟩
  | b :: rest, st, k, i, pending, ins, upd, h₁, h₂ => by
      unfold dispatchAux
      split
      · exact ⟨h₁, h₂⟩
      · have hpb := processBatch_NoDup st li now i (lf k) (tf k) b h₁ h₂
        exact dispatchAux_NoDup li now lf tf pe rest _ _ _ _ _ _ hpb.1 hpb.2

theorem importAfterDecode_store (cards : List MTGAPICard) (st : Store)
    (li : Option Int) (now endTime : Int) (i : Nat) (lf tf pe : Nat → Bool) (pf : Bool) :
    (importAfterDecode cards st li now endTime i lf tf pe pf).store =
      (dispatchAux li now lf tf pe st 0 i [] 0 0 (buildBatches cards)).store := by
  unfold importAfterDecode
  dsimp only
  repeat' split <;> try rfl

/-- C6 (confirmed). If no two catalog rows share the natural key
`(game, set_code, number)` — and no two share an id — before a run, the same
holds after any run of `ImportBulkData`, whatever the dataset contains:
every insert is checked against `idx_cards_unique` and `cards_pkey`, so a
batch whose creates would duplicate a key (including a key occurring twice
within one batch or concurrently created by an earlier batch) fails and
rolls back, and updates rewrite a row's key fields with that same key. -/
theorem C6_naturalKeyUniqueness (stream : List (Option MTGAPICard)) (st : Store)
    (li : Option Int) (now endTime : Int) (i : Nat) (lf tf pe : Nat → Bool) (pf : Bool)
    (h₁ : NoDupNatKeys st) (h₂ : NoDupIds st) :
    NoDupNatKeys (importBulkData stream st li now endTime i lf tf pe pf).store ∧
    NoDupIds (importBulkData stream st li now endTime i lf tf pe pf).store := by
  unfold importBulkData
  cases hdec : decodeStream stream with
  | error e => exact ⟨h₁, h₂⟩
  | ok cards =>
      rw [importAfterDecode_store]
      exact dispatchAux_NoDup li now lf tf pe (buildBatches cards) st 0 i [] 0 0 h₁ h₂

/-- Witness for C6: a run over an empty stream on a one-row catalog keeps
its natural keys unique. -/
theorem C6_naturalKeyUniqueness_witness :
    NoDupNatKeys (importBulkData [] healStore none 0 1 0 (fun _ => false) (fun _ => false)
      (fun _ => false) false).store :=
  (C6_naturalKeyUniqueness [] healStore none 0 1 0 (fun _ => false) (fun _ => false)
    (fun _ => false) false
    (by unfold NoDupNatKeys; decide) (by unfold NoDupIds; decide)).1

theorem find?_unique {α} (p : α → Bool) {l : List α} {x : α} (hx : x ∈ l) (hpx : p x = true)
    (huniq : ∀ y ∈ l, p y = true → y = x) : l.find? p = some x := by
  induction l with
  | nil => cases hx
  | cons a l ih =>
      by_cases hpa : p a = true
      · rw [List.find?_cons_of_pos _ hpa, huniq a (by simp) hpa]
      · rw [List.find?_cons_of_neg _ hpa]
        rcases List.mem_cons.mp hx with h | h
        · exact absurd (h ▸ hpx) hpa
        · exact ih h (fun y hy hpy => huniq y (by simp [hy]) hpy)

theorem find?_map_congr {α} (g : α → α) (p : α → Bool) :
    ∀ l : List α, (∀ a ∈ l, p (g a) = p a) → (l.map g).find? p = (l.find? p).map g := by
  intro l
  induction l with
  | nil => intro _; rfl
  | cons a l ih =>
      intro h
      by_cases hpa : p a = true
      · simp only [List.map_cons]
        rw [List.find?_cons_of_pos _ (by rw [h a (List.mem_cons_self a l)]; exact hpa),
            List.find?_cons_of_pos _ hpa]
        rfl
      · simp only [List.map_cons]
        rw [List.find?_cons_of_neg _ (by rw [h a (List.mem_cons_self a l)]; exact hpa),
            List.find?_cons_of_neg _ hpa]
        exact ih (fun b hb => h b (by simp [hb]))

theorem applyCardUpdates_id : ∀ (l : List CardRow) (r : CardRow),
    (applyCardUpdates l r).id = r.id
  | [], _ => rfl
  | u :: l, r => by
      show (applyCardUpdates l (if r.id == u.id then updRow r u else r)).id = r.id
      split
      · rw [applyCardUpdates_id l]; rfl
      · exact applyCardUpdates_id l r

theorem applyCardUpdates_skip : ∀ (l : List CardRow) (r : CardRow),
    (∀ u ∈ l, u.id ≠ r.id) → applyCardUpdates l r = r
  | [], _, _ => rfl
  | u :: l, r, h => by
      show applyCardUpdates l (if r.id == u.id then updRow r u else r) = r
      have hne : ¬ (r.id == u.id) = true := by
        simp only [beq_iff_eq]
        exact fun he => h u (by simp) he.symm
      rw [if_neg hne]
      exact applyCardUpdates_skip l r (fun v hv => h v (by simp [hv]))

theorem applyCardUpdates_absorb : ∀ (l : List CardRow) (r u : CardRow),
    (∀ v ∈ l, v.id = r.id → v = u) → applyCardUpdates l (updRow r u) = updRow r u
  | [], _, _, _ => rfl
  | v :: l, r, u, h => by
      show applyCardUpdates l
        (if (updRow r u).id == v.id then updRow (updRow r u) v else updRow r u) = updRow r u
      by_cases hv : ((updRow r u).id == v.id) = true
      · have hveq : v = u := by
          apply h v (by simp)
          have : r.id = v.id := by simpa [updRow] using hv
          exact this.symm
        rw [if_pos hv, hveq]
        rw [show updRow (updRow r u) u = updRow r u from rfl]
        exact applyCardUpdates_absorb l r u (fun w hw => h w (by simp [hw]))
      · rw [if_neg hv]
        exact applyCardUpdates_absorb l r u (fun w hw => h w (by simp [hw]))

theorem applyCardUpdates_hit : ∀ (l : List CardRow) (r u : CardRow), u ∈ l → u.id = r.id →
    (∀ v ∈ l, v.id = r.id → v = u) → applyCardUpdates l r = updRow r u
  | [], _, u, hu, _, _ => absurd hu (by simp)
  | v :: l, r, u, hu, hid, h => by
      show applyCardUpdates l (if r.id == v.id then updRow r v else r) = updRow r u
      by_cases hv : (r.id == v.id) = true
      · have hv₂ : r.id = v.id := by simpa using hv
        have hveq : v = u := h v (by simp) hv₂.symm
        rw [if_pos hv, hveq]
        exact applyCardUpdates_absorb l r u (fun w hw => h w (by simp [hw]))
      · rw [if_neg hv]
        rcases List.mem_cons.mp hu with he | he
        · exact absurd (by simp [← he, hid]) hv
        · exact applyCardUpdates_hit l r u he hid (fun w hw => h w (by simp [hw]))

theorem applyMtgUpdates_cardId : ∀ (l : List MtgEntry) (e : MtgEntry),
    (applyMtgUpdates l e).cardId = e.cardId
  | [], _ => rfl
  | m :: l, e => by
      show (applyMtgUpdates l (if e.cardId == m.cardId then m else e)).cardId = e.cardId
      split
      · rename_i hm
        rw [applyMtgUpdates_cardId l]
        exact (by simpa using hm : e.cardId = m.cardId).symm
      · exact applyMtgUpdates_cardId l e

theorem applyMtgUpdates_skip : ∀ (l : List MtgEntry) (e : MtgEntry),
    (∀ m ∈ l, m.cardId ≠ e.cardId) → applyMtgUpdates l e = e
  | [], _, _ => rfl
  | m :: l, e, h => by
      show applyMtgUpdates l (if e.cardId == m.cardId then m else e) = e
      have hne : ¬ (e.cardId == m.cardId) = true := by
        simp only [beq_iff_eq]
        exact fun he => h m (by simp) he.symm
      rw [if_neg hne]
      exact applyMtgUpdates_skip l e (fun w hw => h w (by simp [hw]))

theorem applyMtgUpdates_fix : ∀ (l : List MtgEntry) (mm : MtgEntry),
    (∀ m ∈ l, m.cardId = mm.cardId → m = mm) → applyMtgUpdates l mm = mm
  | [], _, _ => rfl
  | m :: l, mm, h => by
      show applyMtgUpdates l (if mm.cardId == m.cardId then m else mm) = mm
      by_cases hm : (mm.cardId == m.cardId) = true
      · have hm₂ : mm.cardId = m.cardId := by simpa using hm
        rw [if_pos hm, h m (by simp) hm₂.symm]
        exact applyMtgUpdates_fix l mm (fun w hw => h w (by simp [hw]))
      · rw [if_neg hm]
        exact applyMtgUpdates_fix l mm (fun w hw => h w (by simp [hw]))

theorem applyMtgUpdates_hit : ∀ (l : List MtgEntry) (e mm : MtgEntry), mm ∈ l →
    mm.cardId = e.cardId → (∀ m ∈ l, m.cardId = e.cardId → m = mm) →
    applyMtgUpdates l e = mm
  | [], _, mm, hm, _, _ => absurd hm (by simp)
  | m :: l, e, mm, hm, hid, h => by
      show applyMtgUpdates l (if e.cardId == m.cardId then m else e) = mm
      by_cases hv : (e.cardId == m.cardId) = true
      · have hv₂ : e.cardId = m.cardId := by simpa using hv
        have hveq : m = mm := h m (by simp) hv₂.symm
        rw [if_pos hv, hveq]
        exact applyMtgUpdates_fix l mm
          (fun w hw hwc => h w (by simp [hw]) (by rw [hwc, hid]))
      · rw [if_neg hv]
        rcases List.mem_cons.mp hm with he | he
        · exact absurd (by simp [← he, hid]) hv
        · exact applyMtgUpdates_hit l e mm he hid (fun w hw => h w (by simp [hw]))

theorem insertCards_ok_cards_exact :
    ∀ (l : List CardRow) (st s : Store), insertCards st l = .ok s →
      s.cards = st.cards ++ l ∧ s.mtgs = st.mtgs
  | [], st, s, h => by
      unfold insertCards at h
      injection h with h₂
      subst h₂
      simp
  | c :: rest, st, s, h => by
      unfold insertCards at h
      cases hic : insertCardRow st c with
      | error e =>
          rw [hic] at h
          exact absurd h (by simp [Bind.bind, Except.bind])
      | ok s₁ =>
          rw [hic] at h
          simp only [Bind.bind, Except.bind] at h
          obtain ⟨hc, hm, _, _⟩ := insertCardRow_ok_cards hic
          obtain ⟨hcs, hms⟩ := insertCards_ok_cards_exact rest s₁ s h
          constructor
          · rw [hcs, hc, List.append_assoc]
            rfl
          · rw [hms, hm]

theorem updateCards_cards_map : ∀ (l : List CardRow) (st : Store),
    (updateCards st l).cards = st.cards.map (applyCardUpdates l)
  | [], st => by
      show st.cards = st.cards.map (applyCardUpdates [])
      rw [show applyCardUpdates [] = fun r => r from rfl]
      exact (List.map_id' st.cards).symm
  | u :: rest, st => by
      rw [show updateCards st (u :: rest) = updateCards (updateCardRow st u) rest from rfl,
          updateCards_cards_map rest]
      unfold updateCardRow
      rw [List.map_map]
      rfl

theorem updateCards_mtgs : ∀ (l : List CardRow) (st : Store), (updateCards st l).mtgs = st.mtgs
  | [], _ => rfl
  | u :: rest, st => by
      rw [show updateCards st (u :: rest) = updateCards (updateCardRow st u) rest from rfl,
          updateCards_mtgs rest]
      rfl

theorem updateMtgs_mtgs_map : ∀ (l : List MtgEntry) (st : Store),
    (updateMtgs st l).mtgs = st.mtgs.map (applyMtgUpdates l)
  | [], st => by
      show st.mtgs = st.mtgs.map (applyMtgUpdates [])
      rw [show applyMtgUpdates [] = fun e => e from rfl]
      exact (List.map_id' st.mtgs).symm
  | m :: rest, st => by
      rw [show updateMtgs st (m :: rest) = updateMtgs (updateMtgRow st m) rest from rfl,
          updateMtgs_mtgs_map rest]
      unfold updateMtgRow
      rw [List.map_map]
      rfl

theorem txBody_ok_shape {res : ClassifyResult} {st st₂ : Store}
    (h : txBody res false st = .ok st₂) :
    st₂.cards = (st.cards ++ res.cardsToCreate).map (applyCardUpdates res.cardsToUpdate) ∧
    st₂.mtgs = (st.mtgs ++ res.mtgCardsToCreate).map (applyMtgUpdates res.mtgCardsToUpdate) := by
  unfold txBody at h
  rw [if_neg (by simp)] at h
  cases hic : insertCards st res.cardsToCreate with
  | error e =>
      rw [hic] at h
      exact absurd h (by simp [Bind.bind, Except.bind])
  | ok s₁ =>
      rw [hic] at h
      simp only [Bind.bind, Except.bind] at h
      injection h with h₃
      obtain ⟨hcs, hms⟩ := insertCards_ok_cards_exact _ _ _ hic
      subst h₃
      constructor
      · rw [updateMtgs_cards, updateCards_cards_map]
        rw [show (insertMtgRows s₁ res.mtgCardsToCreate).cards = s₁.cards from rfl, hcs]
      · rw [updateMtgs_mtgs_map, updateCards_mtgs]
        rw [show (insertMtgRows s₁ res.mtgCardsToCreate).mtgs =
              s₁.mtgs ++ res.mtgCardsToCreate from rfl, hms]

theorem validB_iff (c : MTGAPICard) :
    validB c = true ↔ ¬ (c.set = "" ∨ c.collectorNumber = "") := by
  simp [validB, not_or]

theorem classifyCard_create_inv {st : Store} {li : Option Int} {now : Int} {i : Nat}
    {c : MTGAPICard} {bb : CardRow} {mm : MtgEntry}
    (h : classifyCard st li now i c = .create bb mm) :
    validB c = true ∧ ¬ cursorSkipped li now c ∧
    storeFind st c.set c.collectorNumber = none ∧
    bb = { mkBaseCard now c with id := i, createdAt := now } ∧
    mm = ⟨i, mkMtgRow now c⟩ := by
  unfold classifyCard at h
  split at h
  · simp at h
  · rename_i hval
    dsimp only at h
    split at h
    · simp at h
    · rename_i hcur
      cases hfind : storeFind st c.set c.collectorNumber with
      | none =>
          rw [hfind] at h
          injection h with h₁ h₂
          exact ⟨(validB_iff c).mpr hval, hcur, rfl, h₁.symm, h₂.symm⟩
      | some pr =>
          obtain ⟨r, mo⟩ := pr
          rw [hfind] at h
          cases mo with
          | none => simp at h
          | some em =>
              dsimp only at h
              split at h <;> simp at h

theorem classifyCard_update_inv {st : Store} {li : Option Int} {now : Int} {i : Nat}
    {c : MTGAPICard} {bb : CardRow} {mm : MtgEntry}
    (h : classifyCard st li now i c = .update bb mm) :
    validB c = true ∧ ¬ cursorSkipped li now c ∧
    ∃ r em, storeFind st c.set c.collectorNumber = some (r, some em) ∧
      ¬ (sigOfCard c).Hash = (sigOfExisting r em).Hash ∧
      bb = { mkBaseCard now c with id := r.id, createdAt := r.createdAt } ∧
      mm = ⟨r.id, mkMtgRow now c⟩ := by
  unfold classifyCard at h
  split at h
  · simp at h
  · rename_i hval
    dsimp only at h
    split at h
    · simp at h
    · rename_i hcur
      cases hfind : storeFind st c.set c.collectorNumber with
      | none => rw [hfind] at h; simp at h
      | some pr =>
          obtain ⟨r, mo⟩ := pr
          rw [hfind] at h
          cases mo with
          | none => simp at h
          | some em =>
              dsimp only at h
              split at h
              · simp at h
              · rename_i hhash
                injection h with h₁ h₂
                exact ⟨(validB_iff c).mpr hval, hcur, r, em, rfl, hhash, h₁.symm, h₂.symm⟩

theorem classifyCard_heal_inv {st : Store} {li : Option Int} {now : Int} {i : Nat}
    {c : MTGAPICard} {mm : MtgEntry}
    (h : classifyCard st li now i c = .healMtg mm) :
    ∃ r, storeFind st c.set c.collectorNumber = some (r, none) ∧
      mm = ⟨r.id, mkMtgRow now c⟩ := by
  unfold classifyCard at h
  split at h
  · simp at h
  · dsimp only at h
    split at h
    · simp at h
    · cases hfind : storeFind st c.set c.collectorNumber with
      | none => rw [hfind] at h; simp at h
      | some pr =>
          obtain ⟨r, mo⟩ := pr
          rw [hfind] at h
          cases mo with
          | none =>
              injection h with h₁
              exact ⟨r, rfl, h₁.symm⟩
          | some em =>
              dsimp only at h
              split at h <;> simp at h

theorem classifyCard_skipUnchanged_inv {st : Store} {li : Option Int} {now : Int} {i : Nat}
    {c : MTGAPICard} (h : classifyCard st li now i c = .skipUnchanged) :
    ∃ r em, storeFind st c.set c.collectorNumber = some (r, some em) ∧
      (sigOfCard c).Hash = (sigOfExisting r em).Hash := by
  unfold classifyCard at h
  split at h
  · simp at h
  · dsimp only at h
    split at h
    · simp at h
    · cases hfind : storeFind st c.set c.collectorNumber with
      | none => rw [hfind] at h; simp at h
      | some pr =>
          obtain ⟨r, mo⟩ := pr
          rw [hfind] at h
          cases mo with
          | none => simp at h
          | some em =>
              dsimp only at h
              split at h
              · rename_i hhash
                exact ⟨r, em, rfl, hhash⟩
              · simp at h

theorem classifyCard_skipInvalid_inv {st : Store} {li : Option Int} {now : Int} {i : Nat}
    {c : MTGAPICard} (h : classifyCard st li now i c = .skipInvalid) : validB c = false := by
  unfold classifyCard at h
  split at h
  · rename_i hval
    simp [validB]
    rcases hval with h₁ | h₁ <;> simp [h₁]
  · dsimp only at h
    split at h
    · simp at h
    · cases hfind : storeFind st c.set c.collectorNumber with
      | none => rw [hfind] at h; simp at h
      | some pr =>
          obtain ⟨r, mo⟩ := pr
          rw [hfind] at h
          cases mo with
          | none => simp at h
          | some em =>
              dsimp only at h
              split at h <;> simp at h

theorem classifyCard_skipCursor_inv {st : Store} {li : Option Int} {now : Int} {i : Nat}
    {c : MTGAPICard} (h : classifyCard st li now i c = .skipCursor) :
    cursorSkipped li now c := by
  unfold classifyCard at h
  split at h
  · simp at h
  · dsimp only at h
    split at h
    · rename_i hcur
      exact hcur
    · cases hfind : storeFind st c.set c.collectorNumber with
      | none => rw [hfind] at h; simp at h
      | some pr =>
          obtain ⟨r, mo⟩ := pr
          rw [hfind] at h
          cases mo with
          | none => simp at h
          | some em =>
              dsimp only at h
              split at h <;> simp at h

theorem storeFind_mtg_present {st : Store} {s n : String} {r : CardRow} {mo : Option MtgRow}
    (hmtg : AllMtgPresent st) (h : storeFind st s n = some (r, mo)) : ∃ m, mo = some m := by
  unfold storeFind at h
  cases hf : st.cards.find? (fun q => q.game == "mtg" && q.setCode == s && q.number == n) with
  | none => rw [hf] at h; cases h
  | some q =>
      rw [hf] at h
      injection h with h₂
      have hmem := List.mem_of_find?_eq_some hf
      obtain ⟨e, he, hce⟩ := hmtg q hmem
      have hsome : (st.mtgs.find? (fun x => x.cardId == q.id)).isSome :=
        List.find?_isSome.mpr ⟨e, he, by simp [hce]⟩
      obtain ⟨e₂, he₂⟩ := Option.isSome_iff_exists.mp hsome
      have hmo : mo = some e₂.row := by
        have := congrArg Prod.snd h₂
        simp only at this
        rw [← this, he₂]
        rfl
      exact ⟨e₂.row, hmo⟩

theorem storeFind_none_notmem {st : Store} {s n : String} (h : storeFind st s n = none) :
    ∀ r ∈ st.cards, ¬ (r.game = "mtg" ∧ r.setCode = s ∧ r.number = n) := by
  intro r hr hcon
  unfold storeFind at h
  cases hf : st.cards.find? (fun q => q.game == "mtg" && q.setCode == s && q.number == n) with
  | none =>
      have := List.find?_eq_none.mp hf r hr
      exact this (by simp [hcon.1, hcon.2.1, hcon.2.2])
  | some q => rw [hf] at h; cases h

theorem storeFind_of_mem {st : Store} {r : CardRow} (hn : NoDupNatKeys st)
    (hr : r ∈ st.cards) (hg : r.game = "mtg") :
    storeFind st r.setCode r.number =
      some (r, (st.mtgs.find? (fun e => e.cardId == r.id)).map MtgEntry.row) := by
  unfold storeFind
  rw [find?_unique (fun q => q.game == "mtg" && q.setCode == r.setCode && q.number == r.number)
    hr (by simp [hg]) ?uniq]
  case uniq =>
    intro y hy hpy
    simp only [Bool.and_eq_true, beq_iff_eq] at hpy
    apply List.inj_on_of_nodup_map hn hy hr
    simp [natKey, hpy.1.1, hpy.1.2, hpy.2, hg]

theorem classifyBatch_mem_create (st : Store) (li : Option Int) (now : Int) :
    ∀ (i : Nat) (b : List MTGAPICard) (cr : CardRow),
      cr ∈ (classifyBatch st li now i b).cardsToCreate →
      ∃ j c mmc, i ≤ j ∧ j < i + b.length ∧ c ∈ b ∧
        classifyCard st li now j c = .create cr mmc ∧
        mmc ∈ (classifyBatch st li now i b).mtgCardsToCreate
  | _, [], cr, h => by simp [classifyBatch, emptyClassify] at h
  | i, c :: rest, cr, h => by
      unfold classifyBatch at h
      simp only [appendClassify] at h
      rcases List.mem_append.mp h with h₁ | h₂
      · cases hact : classifyCard st li now i c with
        | create bb mm =>
            rw [hact] at h₁
            simp only [actionResult, List.mem_singleton] at h₁
            subst h₁
            refine ⟨i, c, mm, le_refl i, by simp, by simp, hact, ?_⟩
            unfold classifyBatch
            simp only [appendClassify]
            apply List.mem_append_left
            rw [hact]
            simp [actionResult]
        | skipInvalid => rw [hact] at h₁; simp [actionResult, emptyClassify] at h₁
        | skipCursor => rw [hact] at h₁; simp [actionResult, emptyClassify] at h₁
        | skipUnchanged => rw [hact] at h₁; simp [actionResult, emptyClassify] at h₁
        | healMtg m => rw [hact] at h₁; simp [actionResult] at h₁
        | update bb mm => rw [hact] at h₁; simp [actionResult] at h₁
      · obtain ⟨j, c₂, mmc, hj₁, hj₂, hc₂, hcl, hmm⟩ :=
          classifyBatch_mem_create st li now (i + 1) rest cr h₂
        refine ⟨j, c₂, mmc, by omega, by simp only [List.length_cons]; omega,
          by simp [hc₂], hcl, ?_⟩
        unfold classifyBatch
        simp only [appendClassify]
        exact List.mem_append_right _ hmm

theorem classifyBatch_mem_update (st : Store) (li : Option Int) (now : Int) :
    ∀ (i : Nat) (b : List MTGAPICard) (u : CardRow),
      u ∈ (classifyBatch st li now i b).cardsToUpdate →
      ∃ j c mmu, i ≤ j ∧ j < i + b.length ∧ c ∈ b ∧
        classifyCard st li now j c = .update u mmu
  | _, [], u, h => by simp [classifyBatch, emptyClassify] at h
  | i, c :: rest, u, h => by
      unfold classifyBatch at h
      simp only [appendClassify] at h
      rcases List.mem_append.mp h with h₁ | h₂
      · cases hact : classifyCard st li now i c with
        | update bb mm =>
            rw [hact] at h₁
            simp only [actionResult, List.mem_singleton] at h₁
            subst h₁
            exact ⟨i, c, mm, le_refl i, by simp, by simp, hact⟩
        | skipInvalid => rw [hact] at h₁; simp [actionResult, emptyClassify] at h₁
        | skipCursor => rw [hact] at h₁; simp [actionResult, emptyClassify] at h₁
        | skipUnchanged => rw [hact] at h₁; simp [actionResult, emptyClassify] at h₁
        | healMtg m => rw [hact] at h₁; simp [actionResult] at h₁
        | create bb mm => rw [hact] at h₁; simp [actionResult] at h₁
      · obtain ⟨j, c₂, mmu, hj₁, hj₂, hc₂, hcl⟩ :=
          classifyBatch_mem_update st li now (i + 1) rest u h₂
        exact ⟨j, c₂, mmu, by omega, by simp only [List.length_cons]; omega,
          by simp [hc₂], hcl⟩

theorem classifyBatch_mem_mtgUpdate (st : Store) (li : Option Int) (now : Int) :
    ∀ (i : Nat) (b : List MTGAPICard) (mm : MtgEntry),
      mm ∈ (classifyBatch st li now i b).mtgCardsToUpdate →
      ∃ j c bb, i ≤ j ∧ j < i + b.length ∧ c ∈ b ∧
        classifyCard st li now j c = .update bb mm
  | _, [], mm, h => by simp [classifyBatch, emptyClassify] at h
  | i, c :: rest, mm, h => by
      unfold classifyBatch at h
      simp only [appendClassify] at h
      rcases List.mem_append.mp h with h₁ | h₂
      · cases hact : classifyCard st li now i c with
        | update bb mm₂ =>
            rw [hact] at h₁
            simp only [actionResult, List.mem_singleton] at h₁
            subst h₁
            exact ⟨i, c, bb, le_refl i, by simp, by simp, hact⟩
        | skipInvalid => rw [hact] at h₁; simp [actionResult, emptyClassify] at h₁
        | skipCursor => rw [hact] at h₁; simp [actionResult, emptyClassify] at h₁
        | skipUnchanged => rw [hact] at h₁; simp [actionResult, emptyClassify] at h₁
        | healMtg m => rw [hact] at h₁; simp [actionResult] at h₁
        | create bb mm₂ => rw [hact] at h₁; simp [actionResult] at h₁
      · obtain ⟨j, c₂, bb, hj₁, hj₂, hc₂, hcl⟩ :=
          classifyBatch_mem_mtgUpdate st li now (i + 1) rest mm h₂
        exact ⟨j, c₂, bb, by omega, by simp only [List.length_cons]; omega,
          by simp [hc₂], hcl⟩

theorem classifyBatch_mem_mtgCreate (st : Store) (li : Option Int) (now : Int) :
    ∀ (i : Nat) (b : List MTGAPICard) (e : MtgEntry),
      e ∈ (classifyBatch st li now i b).mtgCardsToCreate →
      ∃ j c, i ≤ j ∧ j < i + b.length ∧ c ∈ b ∧
        ((∃ bb, classifyCard st li now j c = .create bb e ∧
            bb ∈ (classifyBatch st li now i b).cardsToCreate) ∨
          classifyCard st li now j c = .healMtg e)
  | _, [], e, h => by simp [classifyBatch, emptyClassify] at h
  | i, c :: rest, e, h => by
      unfold classifyBatch at h
      simp only [appendClassify] at h
      rcases List.mem_append.mp h with h₁ | h₂
      · cases hact : classifyCard st li now i c with
        | create bb mm =>
            rw [hact] at h₁
            simp only [actionResult, List.mem_singleton] at h₁
            subst h₁
            refine ⟨i, c, le_refl i, by simp, by simp, Or.inl ⟨bb, hact, ?_⟩⟩
            unfold classifyBatch
            simp only [appendClassify]
            apply List.mem_append_left
            rw [hact]
            simp [actionResult]
        | healMtg m =>
            rw [hact] at h₁
            simp only [actionResult, List.mem_singleton] at h₁
            subst h₁
            exact ⟨i, c, le_refl i, by simp, by simp, Or.inr hact⟩
        | skipInvalid => rw [hact] at h₁; simp [actionResult, emptyClassify] at h₁
        | skipCursor => rw [hact] at h₁; simp [actionResult, emptyClassify] at h₁
        | skipUnchanged => rw [hact] at h₁; simp [actionResult, emptyClassify] at h₁
        | update bb mm => rw [hact] at h₁; simp [actionResult] at h₁
      · obtain ⟨j, c₂, hj₁, hj₂, hc₂, hsrc⟩ := classifyBatch_mem_mtgCreate st li now (i + 1) rest e h₂
        refine ⟨j, c₂, by omega, by simp only [List.length_cons]; omega, by simp [hc₂], ?_⟩
        rcases hsrc with ⟨bb, hcl, hmem⟩ | hcl
        · refine Or.inl ⟨bb, hcl, ?_⟩
          unfold classifyBatch
          simp only [appendClassify]
          exact List.mem_append_right _ hmem
        · exact Or.inr hcl

theorem classifyBatch_cover (st : Store) (li : Option Int) (now : Int) :
    ∀ (i : Nat) (b : List MTGAPICard) (c : MTGAPICard), c ∈ b →
      ∃ j, i ≤ j ∧ j < i + b.length ∧
        (actionResult (classifyCard st li now j c)).cardsToCreate ⊆
          (classifyBatch st li now i b).cardsToCreate ∧
        (actionResult (classifyCard st li now j c)).cardsToUpdate ⊆
          (classifyBatch st li now i b).cardsToUpdate ∧
        (actionResult (classifyCard st li now j c)).mtgCardsToCreate ⊆
          (classifyBatch st li now i b).mtgCardsToCreate ∧
        (actionResult (classifyCard st li now j c)).mtgCardsToUpdate ⊆
          (classifyBatch st li now i b).mtgCardsToUpdate
  | _, [], c, h => absurd h (by simp)
  | i, c₀ :: rest, c, h => by
      rcases List.mem_cons.mp h with he | he
      · subst he
        refine ⟨i, le_refl i, by simp, ?_, ?_, ?_, ?_⟩ <;>
          · unfold classifyBatch
            simp only [appendClassify]
            exact fun x hx => List.mem_append_left _ hx
      · obtain ⟨j, h₁, h₂, h₃, h₄, h₅, h₆⟩ := classifyBatch_cover st li now (i + 1) rest c he
        refine ⟨j, by omega, by simp only [List.length_cons]; omega, ?_, ?_, ?_, ?_⟩ <;>
          · unfold classifyBatch
            simp only [appendClassify]
            intro x hx
            apply List.mem_append_right
            first
              | exact h₃ hx
              | exact h₄ hx
              | exact h₅ hx
              | exact h₆ hx

theorem validKeys_cons (c : MTGAPICard) (rest : List MTGAPICard) :
    validKeys (c :: rest) =
      if validB c = true then keyOf c :: validKeys rest else validKeys rest := by
  unfold validKeys
  by_cases h : validB c = true <;> simp [List.filter_cons, h]

theorem mem_validKeys {c : MTGAPICard} {b : List MTGAPICard} (hc : c ∈ b)
    (hval : validB c = true) : keyOf c ∈ validKeys b := by
  unfold validKeys
  exact List.mem_map_of_mem _ (List.mem_filter.mpr ⟨hc, hval⟩)

theorem classifyBatch_creates_id_bounds (st : Store) (li : Option Int) (now : Int)
    (i : Nat) (b : List MTGAPICard) (cr : CardRow)
    (h : cr ∈ (classifyBatch st li now i b).cardsToCreate) :
    i ≤ cr.id ∧ cr.id < i + b.length := by
  obtain ⟨j, c, mmc, hj₁, hj₂, _, hcl, _⟩ := classifyBatch_mem_create st li now i b cr h
  obtain ⟨_, _, _, hbb, _⟩ := classifyCard_create_inv hcl
  subst hbb
  exact ⟨hj₁, hj₂⟩

theorem classifyBatch_creates_key (st : Store) (li : Option Int) (now : Int)
    (i : Nat) (b : List MTGAPICard) (cr : CardRow)
    (h : cr ∈ (classifyBatch st li now i b).cardsToCreate) :
    natKey cr ∉ st.cards.map natKey ∧
      ∃ c ∈ b, validB c = true ∧ natKey cr = ("mtg", c.set, c.collectorNumber) := by
  obtain ⟨j, c, mmc, _, _, hcb, hcl, _⟩ := classifyBatch_mem_create st li now i b cr h
  obtain ⟨hval, _, hnone, hbb, _⟩ := classifyCard_create_inv hcl
  have hkey : natKey cr = ("mtg", c.set, c.collectorNumber) := by
    subst hbb
    simp [natKey, mkBaseCard]
  refine ⟨?_, c, hcb, hval, hkey⟩
  intro hmem
  obtain ⟨r, hr, hkr⟩ := List.mem_map.mp hmem
  rw [hkey] at hkr
  simp only [natKey, Prod.mk.injEq] at hkr
  exact storeFind_none_notmem hnone r hr ⟨hkr.1, hkr.2.1, hkr.2.2⟩

theorem classifyBatch_mtgCreates_facts (st : Store) (li : Option Int) (now : Int)
    (hmtg : AllMtgPresent st) (i : Nat) (b : List MTGAPICard) (e : MtgEntry)
    (h : e ∈ (classifyBatch st li now i b).mtgCardsToCreate) :
    i ≤ e.cardId ∧ e.cardId < i + b.length ∧
      ∃ cr ∈ (classifyBatch st li now i b).cardsToCreate, cr.id = e.cardId := by
  obtain ⟨j, c, hj₁, hj₂, _, hsrc⟩ := classifyBatch_mem_mtgCreate st li now i b e h
  rcases hsrc with ⟨bb, hcl, hmem⟩ | hcl
  · obtain ⟨_, _, _, hbb, hmm⟩ := classifyCard_create_inv hcl
    subst hmm
    subst hbb
    exact ⟨hj₁, hj₂, _, hmem, rfl⟩
  · obtain ⟨r, hfind, _⟩ := classifyCard_heal_inv hcl
    obtain ⟨m, hm⟩ := storeFind_mtg_present hmtg hfind
    cases hm

theorem classifyBatch_creates_ids_nodup (st : Store) (li : Option Int) (now : Int) :
    ∀ (i : Nat) (b : List MTGAPICard),
      ((classifyBatch st li now i b).cardsToCreate.map CardRow.id).Nodup
  | _, [] => by simp [classifyBatch, emptyClassify]
  | i, c :: rest => by
      unfold classifyBatch
      simp only [appendClassify, List.map_append]
      apply List.nodup_append.mpr
      refine ⟨?_, classifyBatch_creates_ids_nodup st li now (i + 1) rest, ?_⟩
      · cases hact : classifyCard st li now i c <;> simp [actionResult, emptyClassify]
      · intro x hx₁ hx₂
        obtain ⟨cr, hcr, hcrid⟩ := List.mem_map.mp hx₂
        have hb := classifyBatch_creates_id_bounds st li now (i + 1) rest cr hcr
        cases hact : classifyCard st li now i c with
        | create bb mm =>
            rw [hact] at hx₁
            simp only [actionResult, List.map_cons, List.map_nil, List.mem_singleton] at hx₁
            obtain ⟨_, _, _, hbb, _⟩ := classifyCard_create_inv hact
            subst hbb
            subst hx₁
            omega
        | skipInvalid => rw [hact] at hx₁; simp [actionResult, emptyClassify] at hx₁
        | skipCursor => rw [hact] at hx₁; simp [actionResult, emptyClassify] at hx₁
        | skipUnchanged => rw [hact] at hx₁; simp [actionResult, emptyClassify] at hx₁
        | healMtg m => rw [hact] at hx₁; simp [actionResult, emptyClassify] at hx₁
        | update bb mm => rw [hact] at hx₁; simp [actionResult, emptyClassify] at hx₁

theorem classifyBatch_mtgCreates_nodup (st : Store) (li : Option Int) (now : Int)
    (hmtg : AllMtgPresent st) :
    ∀ (i : Nat) (b : List MTGAPICard),
      ((classifyBatch st li now i b).mtgCardsToCreate.map MtgEntry.cardId).Nodup
  | _, [] => by simp [classifyBatch, emptyClassify]
  | i, c :: rest => by
      unfold classifyBatch
      simp only [appendClassify, List.map_append]
      apply List.nodup_append.mpr
      refine ⟨?_, classifyBatch_mtgCreates_nodup st li now hmtg (i + 1) rest, ?_⟩
      · cases hact : classifyCard st li now i c <;> simp [actionResult, emptyClassify]
      · intro x hx₁ hx₂
        obtain ⟨e, he, heid⟩ := List.mem_map.mp hx₂
        have hb := (classifyBatch_mtgCreates_facts st li now hmtg (i + 1) rest e he).1
        cases hact : classifyCard st li now i c with
        | create bb mm =>
            rw [hact] at hx₁
            simp only [actionResult, List.map_cons, List.map_nil, List.mem_singleton] at hx₁
            obtain ⟨_, _, _, _, hmm⟩ := classifyCard_create_inv hact
            subst hmm
            have hxi : x = i := hx₁
            omega
        | healMtg m =>
            obtain ⟨r, hfind, _⟩ := classifyCard_heal_inv hact
            obtain ⟨m₂, hm₂⟩ := storeFind_mtg_present hmtg hfind
            cases hm₂
        | skipInvalid => rw [hact] at hx₁; simp [actionResult, emptyClassify] at hx₁
        | skipCursor => rw [hact] at hx₁; simp [actionResult, emptyClassify] at hx₁
        | skipUnchanged => rw [hact] at hx₁; simp [actionResult, emptyClassify] at hx₁
        | update bb mm => rw [hact] at hx₁; simp [actionResult, emptyClassify] at hx₁

theorem classifyBatch_creates_keys_nodup (st : Store) (li : Option Int) (now : Int) :
    ∀ (i : Nat) (b : List MTGAPICard), (validKeys b).Nodup →
      ((classifyBatch st li now i b).cardsToCreate.map natKey).Nodup
  | _, [], _ => by simp [classifyBatch, emptyClassify]
  | i, c :: rest, hbk => by
      have hbk₂ : (validKeys rest).Nodup := by
        rw [validKeys_cons] at hbk
        split at hbk
        · exact hbk.of_cons
        · exact hbk
      unfold classifyBatch
      simp only [appendClassify, List.map_append]
      apply List.nodup_append.mpr
      refine ⟨?_, classifyBatch_creates_keys_nodup st li now (i + 1) rest hbk₂, ?_⟩
      · cases hact : classifyCard st li now i c <;> simp [actionResult, emptyClassify]
      · intro x hx₁ hx₂
        obtain ⟨cr, hcr, hcrk⟩ := List.mem_map.mp hx₂
        obtain ⟨_, c₂, hc₂, hval₂, hkey₂⟩ :=
          classifyBatch_creates_key st li now (i + 1) rest cr hcr
        cases hact : classifyCard st li now i c with
        | create bb mm =>
            rw [hact] at hx₁
            simp only [actionResult, List.map_cons, List.map_nil, List.mem_singleton] at hx₁
            obtain ⟨hval, _, _, hbb, _⟩ := classifyCard_create_inv hact
            rw [validKeys_cons, if_pos hval] at hbk
            have hk₂ : keyOf c₂ ∈ validKeys rest := mem_validKeys hc₂ hval₂
            have hne : keyOf c ≠ keyOf c₂ := by
              intro he
              rw [he] at hbk
              exact (List.nodup_cons.mp hbk).1 hk₂
            apply hne
            have hx₃ : natKey bb = natKey cr := by rw [← hx₁, hcrk]
            rw [hkey₂, hbb] at hx₃
            simp only [natKey, mkBaseCard, Prod.mk.injEq] at hx₃
            simp only [keyOf, Prod.mk.injEq]
            exact ⟨hx₃.2.1, hx₃.2.2⟩
        | skipInvalid => rw [hact] at hx₁; simp [actionResult, emptyClassify] at hx₁
        | skipCursor => rw [hact] at hx₁; simp [actionResult, emptyClassify] at hx₁
        | skipUnchanged => rw [hact] at hx₁; simp [actionResult, emptyClassify] at hx₁
        | healMtg m => rw [hact] at hx₁; simp [actionResult, emptyClassify] at hx₁
        | update bb mm => rw [hact] at hx₁; simp [actionResult, emptyClassify] at hx₁

theorem classifyBatch_updates_unique (st : Store) (li : Option Int) (now : Int)
    (h₂ : NoDupIds st) (i : Nat) (b : List MTGAPICard) (hbk : (validKeys b).Nodup)
    {jc : Nat} {c : MTGAPICard} {bb : CardRow} {mmc : MtgEntry} (hc : c ∈ b)
    (hact : classifyCard st li now jc c = .update bb mmc) :
    (∀ v ∈ (classifyBatch st li now i b).cardsToUpdate, v.id = bb.id → v = bb) ∧
    (∀ w ∈ (classifyBatch st li now i b).mtgCardsToUpdate, w.cardId = mmc.cardId → w = mmc) := by
  obtain ⟨hval, _, r₀, em₀, hfind₀, _, hbb, hmmc⟩ := classifyCard_update_inv hact
  obtain ⟨hr₀mem, hr₀g, hr₀s, hr₀n⟩ := storeFind_some_mem hfind₀
  have hkeynodup : ((b.filter validB).map keyOf).Nodup := hbk
  have main : ∀ (c₂ : MTGAPICard) (r₂ : CardRow) (em₂ : MtgRow), c₂ ∈ b →
      validB c₂ = true → storeFind st c₂.set c₂.collectorNumber = some (r₂, some em₂) →
      r₂.id = r₀.id → c₂ = c ∧ r₂ = r₀ := by
    intro c₂ r₂ em₂ hc₂ hval₂ hfind₂ hid₂
    obtain ⟨hr₂mem, hr₂g, hr₂s, hr₂n⟩ := storeFind_some_mem hfind₂
    have hre : r₂ = r₀ := List.inj_on_of_nodup_map h₂ hr₂mem hr₀mem hid₂
    have hkeq : keyOf c₂ = keyOf c := by
      simp only [keyOf, Prod.mk.injEq]
      constructor
      · rw [← hr₂s, hre, hr₀s]
      · rw [← hr₂n, hre, hr₀n]
    have hceq : c₂ = c :=
      List.inj_on_of_nodup_map hkeynodup (List.mem_filter.mpr ⟨hc₂, hval₂⟩)
        (List.mem_filter.mpr ⟨hc, hval⟩) hkeq
    exact ⟨hceq, hre⟩
  constructor
  · intro v hv hvid
    obtain ⟨j₂, c₂, mmu₂, _, _, hc₂, hact₂⟩ := classifyBatch_mem_update st li now i b v hv
    obtain ⟨hval₂, _, r₂, em₂, hfind₂, _, hv₂, _⟩ := classifyCard_update_inv hact₂
    have hid₂ : r₂.id = r₀.id := by
      have h₁ : v.id = r₂.id := by rw [hv₂]
      have h₃ : bb.id = r₀.id := by rw [hbb]
      rw [← h₁, hvid, h₃]
    obtain ⟨hceq, hre⟩ := main c₂ r₂ em₂ hc₂ hval₂ hfind₂ hid₂
    rw [hv₂, hbb, hceq, hre]
  · intro w hw hwid
    obtain ⟨j₂, c₂, bb₂, _, _, hc₂, hact₂⟩ := classifyBatch_mem_mtgUpdate st li now i b w hw
    obtain ⟨hval₂, _, r₂, em₂, hfind₂, _, _, hw₂⟩ := classifyCard_update_inv hact₂
    have hid₂ : r₂.id = r₀.id := by
      have h₁ : w.cardId = r₂.id := by rw [hw₂]
      have h₃ : mmc.cardId = r₀.id := by rw [hmmc]
      rw [← h₁, hwid, h₃]
    obtain ⟨hceq, hre⟩ := main c₂ r₂ em₂ hc₂ hval₂ hfind₂ hid₂
    rw [hw₂, hmmc, hceq, hre]

theorem classifyBatch_updates_id_lt (st : Store) (li : Option Int) (now : Int)
    {bound : Nat} (hb : ∀ r ∈ st.cards, r.id < bound) (i : Nat) (b : List MTGAPICard)
    (u : CardRow) (hu : u ∈ (classifyBatch st li now i b).cardsToUpdate) : u.id < bound := by
  obtain ⟨j, c, mmu, _, _, _, hact⟩ := classifyBatch_mem_update st li now i b u hu
  obtain ⟨_, _, r, em, hfind, _, hueq, _⟩ := classifyCard_update_inv hact
  obtain ⟨hrmem, _, _, _⟩ := storeFind_some_mem hfind
  rw [hueq]
  exact hb r hrmem

theorem classifyBatch_mtgUpdates_id_lt (st : Store) (li : Option Int) (now : Int)
    {bound : Nat} (hb : ∀ r ∈ st.cards, r.id < bound) (i : Nat) (b : List MTGAPICard)
    (mm : MtgEntry) (hmm : mm ∈ (classifyBatch st li now i b).mtgCardsToUpdate) :
    mm.cardId < bound := by
  obtain ⟨j, c, bb, _, _, _, hact⟩ := classifyBatch_mem_mtgUpdate st li now i b mm hmm
  obtain ⟨_, _, r, em, hfind, _, _, hmmeq⟩ := classifyCard_update_inv hact
  obtain ⟨hrmem, _, _, _⟩ := storeFind_some_mem hfind
  rw [hmmeq]
  exact hb r hrmem

theorem insertCards_success :
    ∀ (l : List CardRow) (st : Store),
      (∀ c ∈ l, c.id ∉ st.cards.map CardRow.id ∧ natKey c ∉ st.cards.map natKey) →
      (l.map CardRow.id).Nodup → (l.map natKey).Nodup →
      ∃ s, insertCards st l = .ok s
  | [], st, _, _, _ => ⟨st, rfl⟩
  | c :: rest, st, h, hid, hk => by
      have hc := h c (by simp)
      have hstep : insertCardRow st c = .ok { st with cards := st.cards ++ [c] } := by
        unfold insertCardRow
        rw [if_neg, if_neg]
        · intro hany
          obtain ⟨r, hr, hpr⟩ := List.any_eq_true.mp hany
          simp only [Bool.and_eq_true, beq_iff_eq] at hpr
          exact hc.2 (List.mem_map.mpr ⟨r, hr, by
            simp [natKey, hpr.1.1, hpr.1.2, hpr.2]⟩)
        · intro hany
          obtain ⟨r, hr, hpr⟩ := List.any_eq_true.mp hany
          simp only [beq_iff_eq] at hpr
          exact hc.1 (List.mem_map.mpr ⟨r, hr, hpr⟩)
      have hcond : ∀ c₂ ∈ rest,
          c₂.id ∉ ({ st with cards := st.cards ++ [c] } : Store).cards.map CardRow.id ∧
          natKey c₂ ∉ ({ st with cards := st.cards ++ [c] } : Store).cards.map natKey := by
        intro c₂ hc₂
        have h₃ := h c₂ (by simp [hc₂])
        constructor
        · simp only [List.map_append, List.mem_append, List.map_cons, List.map_nil,
            List.mem_singleton]
          rintro (hmem | hmem)
          · exact h₃.1 hmem
          · exact (List.nodup_cons.mp hid).1
              (by rw [← hmem]; exact List.mem_map_of_mem _ hc₂)
        · simp only [List.map_append, List.mem_append, List.map_cons, List.map_nil,
            List.mem_singleton]
          rintro (hmem | hmem)
          · exact h₃.2 hmem
          · exact (List.nodup_cons.mp hk).1
              (by rw [← hmem]; exact List.mem_map_of_mem _ hc₂)
      obtain ⟨s, hs⟩ := insertCards_success rest { st with cards := st.cards ++ [c] } hcond
        (List.nodup_cons.mp hid).2 (List.nodup_cons.mp hk).2
      refine ⟨s, ?_⟩
      unfold insertCards
      rw [hstep]
      simpa [Bind.bind, Except.bind] using hs

theorem txBody_classify_success (st : Store) (li : Option Int) (now : Int) (idBase : Nat)
    (b : List MTGAPICard) (hwf : StoreWF st idBase) (hbk : (validKeys b).Nodup) :
    ∃ st₂, txBody (classifyBatch st li now idBase b) false st = .ok st₂ := by
  obtain ⟨hnk, hni, hbound, hfk, hmn⟩ := hwf
  obtain ⟨s, hs⟩ := insertCards_success (classifyBatch st li now idBase b).cardsToCreate st
    (by
      intro cr hcr
      constructor
      · intro hmem
        obtain ⟨r, hr, hrid⟩ := List.mem_map.mp hmem
        have hb := (classifyBatch_creates_id_bounds st li now idBase b cr hcr).1
        have := hbound r hr
        omega
      · exact (classifyBatch_creates_key st li now idBase b cr hcr).1)
    (classifyBatch_creates_ids_nodup st li now idBase b)
    (classifyBatch_creates_keys_nodup st li now idBase b hbk)
  refine ⟨updateMtgs
      (updateCards (insertMtgRows s (classifyBatch st li now idBase b).mtgCardsToCreate)
        (classifyBatch st li now idBase b).cardsToUpdate)
      (classifyBatch st li now idBase b).mtgCardsToUpdate, ?_⟩
  unfold txBody
  rw [if_neg (by simp), hs]
  rfl

theorem classifyBatch_creates_paired (st : Store) (li : Option Int) (now : Int)
    (i : Nat) (b : List MTGAPICard) (cr : CardRow)
    (h : cr ∈ (classifyBatch st li now i b).cardsToCreate) :
    ∃ e ∈ (classifyBatch st li now i b).mtgCardsToCreate, e.cardId = cr.id := by
  obtain ⟨j, c, mmc, _, _, _, hcl, hmm⟩ := classifyBatch_mem_create st li now i b cr h
  obtain ⟨_, _, _, hbb, hmmc⟩ := classifyCard_create_inv hcl
  refine ⟨mmc, hmm, ?_⟩
  rw [hmmc, hbb]

theorem mtgFind_of_mem {st : Store} (hmn : (st.mtgs.map MtgEntry.cardId).Nodup)
    {e : MtgEntry} (he : e ∈ st.mtgs) :
    st.mtgs.find? (fun x => x.cardId == e.cardId) = some e := by
  apply find?_unique _ he (by simp)
  intro y hy hpy
  simp only [beq_iff_eq] at hpy
  exact List.inj_on_of_nodup_map hmn hy he hpy

theorem established_of_mem {st₂ : Store} (hnk : NoDupNatKeys st₂)
    (hmn : (st₂.mtgs.map MtgEntry.cardId).Nodup) {c : MTGAPICard} {row : CardRow} {e : MtgEntry}
    (hrow : row ∈ st₂.cards) (he : e ∈ st₂.mtgs) (hg : row.game = "mtg")
    (hs : row.setCode = c.set) (hn : row.number = c.collectorNumber) (hid : e.cardId = row.id)
    (hhash : (sigOfCard c).Hash = (sigOfExisting row e.row).Hash) :
    Established st₂ c := by
  refine ⟨row, e.row, ?_, hhash⟩
  have hfind := storeFind_of_mem hnk hrow hg
  rw [hs, hn] at hfind
  rw [hfind]
  have h₂ := mtgFind_of_mem hmn he
  rw [hid] at h₂
  rw [h₂]
  rfl

theorem txBody_ok_WF {st st₂ : Store} {li : Option Int} {now : Int} {idBase : Nat}
    {b : List MTGAPICard} (hwf : StoreWF st idBase) (hmtg : AllMtgPresent st)
    (hok : txBody (classifyBatch st li now idBase b) false st = .ok st₂) :
    StoreWF st₂ (idBase + b.length) ∧ AllMtgPresent st₂ := by
  obtain ⟨hnk, hni, hbound, hfk, hmn⟩ := hwf
  obtain ⟨hsc, hsm⟩ := txBody_ok_shape hok
  have hnodups := txBody_ok_NoDup hok hnk hni (classifyBatch_updates_matched st li now idBase b)
  have hmidG : ∀ e : MtgEntry,
      (applyMtgUpdates (classifyBatch st li now idBase b).mtgCardsToUpdate e).cardId =
        e.cardId := fun e => applyMtgUpdates_cardId _ e
  have hmapc : st₂.mtgs.map MtgEntry.cardId =
      (st.mtgs ++ (classifyBatch st li now idBase b).mtgCardsToCreate).map MtgEntry.cardId := by
    rw [hsm, List.map_map]
    exact List.map_congr_left (fun e _ => hmidG e)
  refine ⟨⟨hnodups.1, hnodups.2, ?_, ?_, ?_⟩, ?_⟩
  · intro r₂ hr₂
    rw [hsc] at hr₂
    obtain ⟨r, hr, hrF⟩ := List.mem_map.mp hr₂
    rw [← hrF, applyCardUpdates_id]
    rcases List.mem_append.mp hr with h | h
    · have := hbound r h
      omega
    · have := (classifyBatch_creates_id_bounds st li now idBase b r h).2
      omega
  · intro e₂ he₂
    rw [hsm] at he₂
    obtain ⟨e, he, heG⟩ := List.mem_map.mp he₂
    rw [← heG, hmidG]
    rcases List.mem_append.mp he with h | h
    · obtain ⟨r, hr, hrid⟩ := hfk e h
      refine ⟨applyCardUpdates (classifyBatch st li now idBase b).cardsToUpdate r, ?_, ?_⟩
      · rw [hsc]
        exact List.mem_map_of_mem _ (List.mem_append_left _ hr)
      · rw [applyCardUpdates_id]
        exact hrid
    · obtain ⟨_, _, cr, hcr, hcrid⟩ := classifyBatch_mtgCreates_facts st li now hmtg idBase b e h
      refine ⟨applyCardUpdates (classifyBatch st li now idBase b).cardsToUpdate cr, ?_, ?_⟩
      · rw [hsc]
        exact List.mem_map_of_mem _ (List.mem_append_right _ hcr)
      · rw [applyCardUpdates_id]
        exact hcrid.symm ▸ hcrid
  · rw [hmapc, List.map_append]
    apply List.nodup_append.mpr
    refine ⟨hmn, classifyBatch_mtgCreates_nodup st li now hmtg idBase b, ?_⟩
    intro x hx₁ hx₂
    obtain ⟨e, he, heid⟩ := List.mem_map.mp hx₁
    obtain ⟨e₂, he₂, heid₂⟩ := List.mem_map.mp hx₂
    obtain ⟨r, hr, hrid⟩ := hfk e he
    have h₁ : x < idBase := by
      rw [← heid, ← hrid]
      exact hbound r hr
    have h₂ := (classifyBatch_mtgCreates_facts st li now hmtg idBase b e₂ he₂).1
    omega
  · intro r₂ hr₂
    rw [hsc] at hr₂
    obtain ⟨r, hr, hrF⟩ := List.mem_map.mp hr₂
    rcases List.mem_append.mp hr with h | h
    · obtain ⟨e, he, heid⟩ := hmtg r h
      refine ⟨applyMtgUpdates (classifyBatch st li now idBase b).mtgCardsToUpdate e, ?_, ?_⟩
      · rw [hsm]
        exact List.mem_map_of_mem _ (List.mem_append_left _ he)
      · rw [hmidG, heid, ← hrF, applyCardUpdates_id]
    · obtain ⟨e, he, heid⟩ := classifyBatch_creates_paired st li now idBase b r h
      refine ⟨applyMtgUpdates (classifyBatch st li now idBase b).mtgCardsToUpdate e, ?_, ?_⟩
      · rw [hsm]
        exact List.mem_map_of_mem _ (List.mem_append_right _ he)
      · rw [hmidG, heid, ← hrF, applyCardUpdates_id]

theorem storeFind_some_mtgEntry {st : Store} {s n : String} {r : CardRow} {em : MtgRow}
    (h : storeFind st s n = some (r, some em)) :
    ∃ e₀ ∈ st.mtgs, e₀.cardId = r.id ∧ e₀.row = em := by
  unfold storeFind at h
  cases hf : st.cards.find? (fun q => q.game == "mtg" && q.setCode == s && q.number == n) with
  | none => rw [hf] at h; cases h
  | some q =>
      rw [hf] at h
      injection h with h₂
      have hq : q = r := congrArg Prod.fst h₂
      subst hq
      have hmo := congrArg Prod.snd h₂
      simp only at hmo
      cases hfm : st.mtgs.find? (fun x => x.cardId == q.id) with
      | none => rw [hfm] at hmo; cases hmo
      | some e₀ =>
          rw [hfm] at hmo
          have hrow : e₀.row = em := by
            have := Option.some.inj hmo
            exact this
          have he₀id : e₀.cardId = q.id := by simpa using List.find?_some hfm
          exact ⟨e₀, List.mem_of_find?_eq_some hfm, he₀id, hrow⟩

theorem txBody_established (st : Store) (li : Option Int) (now : Int) (idBase : Nat)
    (b : List MTGAPICard) (hwf : StoreWF st idBase) (hmtg : AllMtgPresent st)
    (hbk : (validKeys b).Nodup) {st₂ : Store}
    (hok : txBody (classifyBatch st li now idBase b) false st = .ok st₂)
    (c : MTGAPICard) (hc : c ∈ b) (hval : validB c = true)
    (hcur : ¬ cursorSkipped li now c) :
    Established st₂ c := by
  obtain ⟨hsc, hsm⟩ := txBody_ok_shape hok
  obtain ⟨⟨hnk₂, hni₂, hbound₂, hfk₂, hmn₂⟩, hmtg₂⟩ := txBody_ok_WF hwf hmtg hok
  obtain ⟨hnk, hni, hbound, hfk, hmn⟩ := hwf
  have hkeynodup : ((b.filter validB).map keyOf).Nodup := hbk
  obtain ⟨j, hj₁, hj₂, hsub_c, hsub_u, hsub_mc, hsub_mu⟩ :=
    classifyBatch_cover st li now idBase b c hc
  cases hact : classifyCard st li now j c with
  | skipInvalid =>
      have h₁ := classifyCard_skipInvalid_inv hact
      rw [hval] at h₁
      cases h₁
  | skipCursor => exact absurd (classifyCard_skipCursor_inv hact) hcur
  | healMtg m =>
      obtain ⟨r, hfind, _⟩ := classifyCard_heal_inv hact
      obtain ⟨m₂, hm₂⟩ := storeFind_mtg_present hmtg hfind
      cases hm₂
  | create bb mm =>
      obtain ⟨_, _, hfind, hbb, hmm⟩ := classifyCard_create_inv hact
      have hbbmem : bb ∈ (classifyBatch st li now idBase b).cardsToCreate := by
        apply hsub_c
        rw [hact]
        simp [actionResult]
      have hmmmem : mm ∈ (classifyBatch st li now idBase b).mtgCardsToCreate := by
        apply hsub_mc
        rw [hact]
        simp [actionResult]
      have hbbid : bb.id = j := by rw [hbb]
      have hmmid : mm.cardId = j := by rw [hmm]
      have hFbb : applyCardUpdates (classifyBatch st li now idBase b).cardsToUpdate bb = bb := by
        apply applyCardUpdates_skip
        intro u hu heq
        have h₁ := classifyBatch_updates_id_lt st li now hbound idBase b u hu
        omega
      have hGmm :
          applyMtgUpdates (classifyBatch st li now idBase b).mtgCardsToUpdate mm = mm := by
        apply applyMtgUpdates_skip
        intro w hw heq
        have h₁ := classifyBatch_mtgUpdates_id_lt st li now hbound idBase b w hw
        omega
      have hrowmem : bb ∈ st₂.cards := by
        rw [hsc, ← hFbb]
        exact List.mem_map_of_mem _ (List.mem_append_right _ hbbmem)
      have hemem : mm ∈ st₂.mtgs := by
        rw [hsm, ← hGmm]
        exact List.mem_map_of_mem _ (List.mem_append_right _ hmmmem)
      refine established_of_mem hnk₂ hmn₂ hrowmem hemem ?_ ?_ ?_ ?_ ?_
      · rw [hbb]
        rfl
      · rw [hbb]
        rfl
      · rw [hbb]
        rfl
      · rw [hmm, hbb]
      · rw [hbb, hmm]
        rfl
  | update bb mm =>
      obtain ⟨_, _, r₀, em₀, hfind₀, hhashne, hbb, hmm⟩ := classifyCard_update_inv hact
      obtain ⟨hr₀mem, hr₀g, hr₀s, hr₀n⟩ := storeFind_some_mem hfind₀
      obtain ⟨huv, huw⟩ := classifyBatch_updates_unique st li now hni idBase b hbk hc hact
      have hbbmem : bb ∈ (classifyBatch st li now idBase b).cardsToUpdate := by
        apply hsub_u
        rw [hact]
        simp [actionResult]
      have hmmmem : mm ∈ (classifyBatch st li now idBase b).mtgCardsToUpdate := by
        apply hsub_mu
        rw [hact]
        simp [actionResult]
      have hbbid : bb.id = r₀.id := by rw [hbb]
      have hmmcid : mm.cardId = r₀.id := by rw [hmm]
      have hFr : applyCardUpdates (classifyBatch st li now idBase b).cardsToUpdate r₀ =
          updRow r₀ bb := by
        apply applyCardUpdates_hit _ _ _ hbbmem hbbid
        intro v hv hvid
        exact huv v hv (by rw [hvid, hbbid])
      have hrowmem : updRow r₀ bb ∈ st₂.cards := by
        rw [hsc, ← hFr]
        exact List.mem_map_of_mem _ (List.mem_append_left _ hr₀mem)
      obtain ⟨e₀, he₀, he₀id⟩ := hmtg r₀ hr₀mem
      have hGe : applyMtgUpdates (classifyBatch st li now idBase b).mtgCardsToUpdate e₀ =
          mm := by
        apply applyMtgUpdates_hit _ _ _ hmmmem (by rw [hmmcid, he₀id])
        intro w hw hwid
        exact huw w hw (by rw [hwid, he₀id, hmmcid])
      have hemem : mm ∈ st₂.mtgs := by
        rw [hsm, ← hGe]
        exact List.mem_map_of_mem _ (List.mem_append_left _ he₀)
      refine established_of_mem hnk₂ hmn₂ hrowmem hemem ?_ ?_ ?_ ?_ ?_
      · rw [hbb]
        rfl
      · rw [hbb]
        rfl
      · rw [hbb]
        rfl
      · rw [hmm]
        rfl
      · rw [hbb, hmm]
        rfl
  | skipUnchanged =>
      obtain ⟨r, em, hfind, hhash⟩ := classifyCard_skipUnchanged_inv hact
      obtain ⟨hrmem, hrg, hrs, hrn⟩ := storeFind_some_mem hfind
      obtain ⟨e₀, he₀mem, he₀id, he₀row⟩ := storeFind_some_mtgEntry hfind
      have noUpd : ∀ u ∈ (classifyBatch st li now idBase b).cardsToUpdate, u.id ≠ r.id := by
        intro u hu heq
        obtain ⟨j₂, c₂, mmu₂, _, _, hc₂, hact₂⟩ :=
          classifyBatch_mem_update st li now idBase b u hu
        obtain ⟨hval₂, _, r₂, em₂, hfind₂, hhashne₂, hu₂, _⟩ := classifyCard_update_inv hact₂
        have hr₂id : r₂.id = r.id := by
          have h₁ : u.id = r₂.id := by rw [hu₂]
          rw [← h₁, heq]
        obtain ⟨hr₂mem, _, hr₂s, hr₂n⟩ := storeFind_some_mem hfind₂
        have hr₂eq : r₂ = r := List.inj_on_of_nodup_map hni hr₂mem hrmem hr₂id
        have hkeq : keyOf c₂ = keyOf c := by
          simp only [keyOf, Prod.mk.injEq]
          exact ⟨by rw [← hr₂s, hr₂eq, hrs], by rw [← hr₂n, hr₂eq, hrn]⟩
        have hceq : c₂ = c :=
          List.inj_on_of_nodup_map hkeynodup (List.mem_filter.mpr ⟨hc₂, hval₂⟩)
            (List.mem_filter.mpr ⟨hc, hval⟩) hkeq
        rw [hceq] at hfind₂
        have hpair := hfind₂.symm.trans hfind
        injection hpair with hp
        have hem : em₂ = em := by
          have h₂ := congrArg Prod.snd hp
          simpa using h₂
        rw [hceq, hr₂eq, hem] at hhashne₂
        exact hhashne₂ hhash
      have noMtgUpd :
          ∀ w ∈ (classifyBatch st li now idBase b).mtgCardsToUpdate, w.cardId ≠ e₀.cardId := by
        intro w hw heq
        obtain ⟨j₂, c₂, bb₂, _, _, hc₂, hact₂⟩ :=
          classifyBatch_mem_mtgUpdate st li now idBase b w hw
        obtain ⟨hval₂, _, r₂, em₂, hfind₂, hhashne₂, _, hw₂⟩ := classifyCard_update_inv hact₂
        have hr₂id : r₂.id = r.id := by
          have h₁ : w.cardId = r₂.id := by rw [hw₂]
          rw [← h₁, heq, he₀id]
        obtain ⟨hr₂mem, _, hr₂s, hr₂n⟩ := storeFind_some_mem hfind₂
        have hr₂eq : r₂ = r := List.inj_on_of_nodup_map hni hr₂mem hrmem hr₂id
        have hkeq : keyOf c₂ = keyOf c := by
          simp only [keyOf, Prod.mk.injEq]
          exact ⟨by rw [← hr₂s, hr₂eq, hrs], by rw [← hr₂n, hr₂eq, hrn]⟩
        have hceq : c₂ = c :=
          List.inj_on_of_nodup_map hkeynodup (List.mem_filter.mpr ⟨hc₂, hval₂⟩)
            (List.mem_filter.mpr ⟨hc, hval⟩) hkeq
        rw [hceq] at hfind₂
        have hpair := hfind₂.symm.trans hfind
        injection hpair with hp
        have hem : em₂ = em := by
          have h₂ := congrArg Prod.snd hp
          simpa using h₂
        rw [hceq, hr₂eq, hem] at hhashne₂
        exact hhashne₂ hhash
      have hFr : applyCardUpdates (classifyBatch st li now idBase b).cardsToUpdate r = r :=
        applyCardUpdates_skip _ _ noUpd
      have hGe : applyMtgUpdates (classifyBatch st li now idBase b).mtgCardsToUpdate e₀ = e₀ :=
        applyMtgUpdates_skip _ _ noMtgUpd
      have hrowmem : r ∈ st₂.cards := by
        rw [hsc, ← hFr]
        exact List.mem_map_of_mem _ (List.mem_append_left _ hrmem)
      have hemem : e₀ ∈ st₂.mtgs := by
        rw [hsm, ← hGe]
        exact List.mem_map_of_mem _ (List.mem_append_left _ he₀mem)
      refine established_of_mem hnk₂ hmn₂ hrowmem hemem hrg hrs hrn he₀id ?_
      rw [he₀row]
      exact hhash

theorem txBody_established_frame (st : Store) (li : Option Int) (now : Int) (idBase : Nat)
    (b : List MTGAPICard) (hwf : StoreWF st idBase) (hmtg : AllMtgPresent st) {st₂ : Store}
    (hok : txBody (classifyBatch st li now idBase b) false st = .ok st₂)
    (c : MTGAPICard) (hkey : keyOf c ∉ validKeys b)
    (hE : Established st c) : Established st₂ c := by
  obtain ⟨hsc, hsm⟩ := txBody_ok_shape hok
  obtain ⟨⟨hnk₂, hni₂, hbound₂, hfk₂, hmn₂⟩, hmtg₂⟩ := txBody_ok_WF hwf hmtg hok
  obtain ⟨hnk, hni, hbound, hfk, hmn⟩ := hwf
  obtain ⟨r, m, hfind, hhash⟩ := hE
  obtain ⟨hrmem, hrg, hrs, hrn⟩ := storeFind_some_mem hfind
  obtain ⟨e₀, he₀mem, he₀id, he₀row⟩ := storeFind_some_mtgEntry hfind
  have noUpd : ∀ u ∈ (classifyBatch st li now idBase b).cardsToUpdate, u.id ≠ r.id := by
    intro u hu heq
    obtain ⟨j₂, c₂, mmu₂, _, _, hc₂, hact₂⟩ :=
      classifyBatch_mem_update st li now idBase b u hu
    obtain ⟨hval₂, _, r₂, em₂, hfind₂, _, hu₂, _⟩ := classifyCard_update_inv hact₂
    have hr₂id : r₂.id = r.id := by
      have h₁ : u.id = r₂.id := by rw [hu₂]
      rw [← h₁, heq]
    obtain ⟨hr₂mem, _, hr₂s, hr₂n⟩ := storeFind_some_mem hfind₂
    have hr₂eq : r₂ = r := List.inj_on_of_nodup_map hni hr₂mem hrmem hr₂id
    have hkeq : keyOf c = keyOf c₂ := by
      simp only [keyOf, Prod.mk.injEq]
      exact ⟨by rw [← hrs, ← hr₂eq, hr₂s], by rw [← hrn, ← hr₂eq, hr₂n]⟩
    rw [hkeq] at hkey
    exact hkey (mem_validKeys hc₂ hval₂)
  have noMtgUpd :
      ∀ w ∈ (classifyBatch st li now idBase b).mtgCardsToUpdate, w.cardId ≠ e₀.cardId := by
    intro w hw heq
    obtain ⟨j₂, c₂, bb₂, _, _, hc₂, hact₂⟩ :=
      classifyBatch_mem_mtgUpdate st li now idBase b w hw
    obtain ⟨hval₂, _, r₂, em₂, hfind₂, _, _, hw₂⟩ := classifyCard_update_inv hact₂
    have hr₂id : r₂.id = r.id := by
      have h₁ : w.cardId = r₂.id := by rw [hw₂]
      rw [← h₁, heq, he₀id]
    obtain ⟨hr₂mem, _, hr₂s, hr₂n⟩ := storeFind_some_mem hfind₂
    have hr₂eq : r₂ = r := List.inj_on_of_nodup_map hni hr₂mem hrmem hr₂id
    have hkeq : keyOf c = keyOf c₂ := by
      simp only [keyOf, Prod.mk.injEq]
      exact ⟨by rw [← hrs, ← hr₂eq, hr₂s], by rw [← hrn, ← hr₂eq, hr₂n]⟩
    rw [hkeq] at hkey
    exact hkey (mem_validKeys hc₂ hval₂)
  have hFr : applyCardUpdates (classifyBatch st li now idBase b).cardsToUpdate r = r :=
    applyCardUpdates_skip _ _ noUpd
  have hGe : applyMtgUpdates (classifyBatch st li now idBase b).mtgCardsToUpdate e₀ = e₀ :=
    applyMtgUpdates_skip _ _ noMtgUpd
  have hrowmem : r ∈ st₂.cards := by
    rw [hsc, ← hFr]
    exact List.mem_map_of_mem _ (List.mem_append_left _ hrmem)
  have hemem : e₀ ∈ st₂.mtgs := by
    rw [hsm, ← hGe]
    exact List.mem_map_of_mem _ (List.mem_append_left _ he₀mem)
  refine established_of_mem hnk₂ hmn₂ hrowmem hemem hrg hrs hrn he₀id ?_
  rw [he₀row]
  exact hhash

theorem validKeys_append (l₁ l₂ : List MTGAPICard) :
    validKeys (l₁ ++ l₂) = validKeys l₁ ++ validKeys l₂ := by
  simp [validKeys, List.filter_append]

theorem cursorSkipped_mono {li : Option Int} {now₁ end₁ now₂ : Int} {c : MTGAPICard}
    (hclock : ∀ p, li = some p → p < now₁ ∧ p ≤ end₁)
    (h : cursorSkipped li now₁ c) : cursorSkipped (some end₁) now₂ c := by
  unfold cursorSkipped cursorSkip at h ⊢
  cases hli : li with
  | none => rw [hli] at h; simp at h
  | some p =>
      obtain ⟨hp₁, hp₂⟩ := hclock p hli
      rw [hli] at h
      cases hu : c.updatedAt with
      | some t =>
          rw [hu] at h
          simp only [Option.getD_some, decide_eq_true_eq] at h
          simp only [hu, Option.getD_some, decide_eq_true_eq]
          omega
      | none =>
          rw [hu] at h
          simp only [Option.getD_none, decide_eq_true_eq] at h
          exact absurd h (by omega)

theorem classifyCard_noop {st : Store} {li : Option Int} {now : Int} {i : Nat}
    {c : MTGAPICard} (hmtg : AllMtgPresent st)
    (hE : validB c = true → ¬ cursorSkipped li now c → Established st c) :
    actionResult (classifyCard st li now i c) = emptyClassify := by
  cases hact : classifyCard st li now i c with
  | skipInvalid => rfl
  | skipCursor => rfl
  | skipUnchanged => rfl
  | create bb mm =>
      obtain ⟨hval, hncur, hfind, _, _⟩ := classifyCard_create_inv hact
      obtain ⟨r, m, hfind₂, _⟩ := hE hval hncur
      rw [hfind] at hfind₂
      cases hfind₂
  | healMtg m =>
      obtain ⟨r, hfind, _⟩ := classifyCard_heal_inv hact
      obtain ⟨m₂, hm₂⟩ := storeFind_mtg_present hmtg hfind
      cases hm₂
  | update bb mm =>
      obtain ⟨hval, hncur, r₂, em₂, hfind₂, hhashne, _, _⟩ := classifyCard_update_inv hact
      obtain ⟨r, m, hfind, hhash⟩ := hE hval hncur
      rw [hfind] at hfind₂
      injection hfind₂ with hp
      have h₁ : r = r₂ := congrArg Prod.fst hp
      have h₂ : m = em₂ := by
        have h₃ := congrArg Prod.snd hp
        simpa using h₃
      rw [← h₁, ← h₂] at hhashne
      exact (hhashne hhash).elim

theorem classifyBatch_noop (st : Store) (li : Option Int) (now : Int)
    (hmtg : AllMtgPresent st) :
    ∀ (i : Nat) (b : List MTGAPICard),
      (∀ c ∈ b, validB c = true → ¬ cursorSkipped li now c → Established st c) →
      classifyBatch st li now i b = emptyClassify
  | _, [], _ => rfl
  | i, c :: rest, h => by
      unfold classifyBatch
      rw [classifyCard_noop hmtg (h c (by simp)),
        classifyBatch_noop st li now hmtg (i + 1) rest
          (fun c₂ hc₂ => h c₂ (List.mem_cons_of_mem c hc₂))]
      rfl

theorem txBody_noop (st : Store) : txBody emptyClassify false st = .ok st := by
  simp only [txBody, emptyClassify, insertCards, insertMtgRows, updateCards, updateMtgs,
    List.append_nil, List.foldl_nil, if_neg (by simp : ¬ (false = true))]
  rfl

theorem processBatch_noop (st : Store) (li : Option Int) (now : Int) (i : Nat)
    (b : List MTGAPICard) (hmtg : AllMtgPresent st)
    (h : ∀ c ∈ b, validB c = true → ¬ cursorSkipped li now c → Established st c) :
    processBatch st li now i false false b = ⟨0, 0, none, st⟩ := by
  unfold processBatch
  rw [if_neg (by simp)]
  dsimp only
  rw [classifyBatch_noop st li now hmtg i b h]
  unfold withTransaction
  rw [txBody_noop]
  rfl

theorem dispatchAux_step (li : Option Int) (now : Int) (st : Store) (k idBase : Nat)
    (pending : List String) (ins upd : Nat) (b : List MTGAPICard)
    (rest : List (List MTGAPICard)) :
    dispatchAux li now (fun _ => false) (fun _ => false) (fun _ => false) st k idBase pending
        ins upd (b :: rest) =
      dispatchAux li now (fun _ => false) (fun _ => false) (fun _ => false)
        (processBatch st li now idBase false false b).store (k + 1) (idBase + b.length)
        (pending ++ ((processBatch st li now idBase false false b).err.map
          (fun e => "failed to process batch: " ++ e)).toList)
        (ins + (processBatch st li now idBase false false b).created)
        (upd + (processBatch st li now idBase false false b).updated) rest := by
  cases pending <;> rfl

theorem dispatchAux_noop (li : Option Int) (now : Int) :
    ∀ (bs : List (List MTGAPICard)) (st : Store) (k idBase : Nat) (pending : List String)
      (ins upd : Nat), AllMtgPresent st →
      (∀ b ∈ bs, ∀ c ∈ b, validB c = true → ¬ cursorSkipped li now c → Established st c) →
      dispatchAux li now (fun _ => false) (fun _ => false) (fun _ => false) st k idBase
          pending ins upd bs = ⟨st, none, k + bs.length, pending, ins, upd⟩
  | [], st, k, idBase, pending, ins, upd, _, _ => rfl
  | b :: rest, st, k, idBase, pending, ins, upd, hmtg, h => by
      rw [dispatchAux_step, processBatch_noop st li now idBase b hmtg (h b (by simp))]
      dsimp only
      simp only [Option.map_none', Option.toList, List.append_nil]
      rw [dispatchAux_noop li now rest st (k + 1) (idBase + b.length) pending (ins + 0) (upd + 0)
          hmtg (fun b₂ hb₂ => h b₂ (List.mem_cons_of_mem b hb₂))]
      simp only [DispatchResult.mk.injEq, List.length_cons, Nat.add_zero, true_and, and_true]
      omega

theorem dispatchAux_established (li : Option Int) (now : Int) :
    ∀ (bs : List (List MTGAPICard)) (st : Store) (k idBase : Nat) (pending : List String)
      (ins upd : Nat), StoreWF st idBase → AllMtgPresent st →
      (validKeys bs.flatten).Nodup →
      StoreWF (dispatchAux li now (fun _ => false) (fun _ => false) (fun _ => false)
          st k idBase pending ins upd bs).store (idBase + bs.flatten.length) ∧
      AllMtgPresent (dispatchAux li now (fun _ => false) (fun _ => false) (fun _ => false)
          st k idBase pending ins upd bs).store ∧
      (dispatchAux li now (fun _ => false) (fun _ => false) (fun _ => false)
          st k idBase pending ins upd bs).abortErr = none ∧
      (dispatchAux li now (fun _ => false) (fun _ => false) (fun _ => false)
          st k idBase pending ins upd bs).pending = pending ∧
      (∀ c ∈ bs.flatten, validB c = true → ¬ cursorSkipped li now c →
        Established (dispatchAux li now (fun _ => false) (fun _ => false) (fun _ => false)
          st k idBase pending ins upd bs).store c) ∧
      (∀ c, keyOf c ∉ validKeys bs.flatten → Established st c →
        Established (dispatchAux li now (fun _ => false) (fun _ => false) (fun _ => false)
          st k idBase pending ins upd bs).store c)
  | [], st, k, idBase, pending, ins, upd, hwf, hmtg, _ => by
      refine ⟨?_, hmtg, rfl, rfl, by simp, fun c _ hE => hE⟩
      simpa using hwf
  | b :: rest, st, k, idBase, pending, ins, upd, hwf, hmtg, hkeys => by
      have hkeys₂ : ((validKeys b ++ validKeys rest.flatten)).Nodup := by
        rw [← validKeys_append, ← List.flatten_cons]
        exact hkeys
      obtain ⟨hbk, hrk, hdisj⟩ := List.nodup_append.mp hkeys₂
      obtain ⟨st₂, hok⟩ := txBody_classify_success st li now idBase b hwf hbk
      have hpb : processBatch st li now idBase false false b =
          ⟨(classifyBatch st li now idBase b).cardsToCreate.length,
           (classifyBatch st li now idBase b).cardsToUpdate.length, none, st₂⟩ := by
        unfold processBatch
        rw [if_neg (by simp)]
        dsimp only
        unfold withTransaction
        rw [hok]
      have hstep : dispatchAux li now (fun _ => false) (fun _ => false) (fun _ => false)
          st k idBase pending ins upd (b :: rest) =
          dispatchAux li now (fun _ => false) (fun _ => false) (fun _ => false)
            st₂ (k + 1) (idBase + b.length) pending
            (ins + (classifyBatch st li now idBase b).cardsToCreate.length)
            (upd + (classifyBatch st li now idBase b).cardsToUpdate.length) rest := by
        rw [dispatchAux_step, hpb]
        dsimp only
        simp only [Option.map_none', Option.toList, List.append_nil]
      obtain ⟨hwf₂, hmtg₂⟩ := txBody_ok_WF hwf hmtg hok
      obtain ⟨ihwf, ihmtg, ihabort, ihpend, ihEst, ihFrame⟩ :=
        dispatchAux_established li now rest st₂ (k + 1) (idBase + b.length) pending
          (ins + (classifyBatch st li now idBase b).cardsToCreate.length)
          (upd + (classifyBatch st li now idBase b).cardsToUpdate.length) hwf₂ hmtg₂ hrk
      rw [hstep]
      refine ⟨?_, ihmtg, ihabort, ihpend, ?_, ?_⟩
      · have harith : idBase + b.length + rest.flatten.length =
            idBase + (b :: rest).flatten.length := by
          simp [Nat.add_assoc]
        exact harith ▸ ihwf
      · intro c hc hval hncur
        rw [List.flatten_cons, List.mem_append] at hc
        rcases hc with hcb | hcr
        · have hEst₂ : Established st₂ c :=
            txBody_established st li now idBase b hwf hmtg hbk hok c hcb hval hncur
          exact ihFrame c (fun hmem => hdisj (mem_validKeys hcb hval) hmem) hEst₂
        · exact ihEst c hcr hval hncur
      · intro c hkey hE
        rw [List.flatten_cons, validKeys_append, List.mem_append] at hkey
        push_neg at hkey
        have hEst₂ : Established st₂ c :=
          txBody_established_frame st li now idBase b hwf hmtg hok c hkey.1 hE
        exact ihFrame c hkey.2 hEst₂

theorem emptyStore_WF : StoreWF emptyStore 0 := by
  refine ⟨?_, ?_, ?_, ?_, ?_⟩ <;> simp [NoDupNatKeys, NoDupIds, emptyStore]

theorem emptyStore_allMtg : AllMtgPresent emptyStore := by
  intro r hr
  simp [emptyStore] at hr

/-- C4 (corrected). Idempotence holds for a catalog that satisfies the
schema invariants and has no `mtg_cards` row missing: after a first run
with well-behaved clocks (the stored cursor predates the run and is at
most the run-end time written back), a second run over the same decoded
dataset — with the cursor the first run wrote — classifies no record for
creation and none for update, and leaves the catalog untouched. The
unconditional claim is false: a base row whose `mtg_cards` row is missing
is healed by the first run without its base fields being refreshed, and a
record whose `updated_at` fails to parse bypasses the cursor on both runs,
so the second run classifies it for update. -/
theorem C4_idempotence (stream : List (Option MTGAPICard)) (cards : List MTGAPICard)
    (st : Store) (li : Option Int) (now₁ end₁ now₂ end₂ : Int) (idBase idBase₂ : Nat)
    (pf₂ : Bool) (hdec : decodeStream stream = .ok cards)
    (hkeys : (validKeys cards).Nodup) (hwf : StoreWF st idBase) (hmtg : AllMtgPresent st)
    (hclock : ∀ p, li = some p → p < now₁ ∧ p ≤ end₁) :
    (importBulkData stream st li now₁ end₁ idBase (fun _ => false) (fun _ => false)
        (fun _ => false) false).cursorWrite = some end₁ ∧
    (importBulkData stream
        (importBulkData stream st li now₁ end₁ idBase (fun _ => false) (fun _ => false)
          (fun _ => false) false).store (some end₁) now₂ end₂ idBase₂ (fun _ => false)
        (fun _ => false) (fun _ => false) pf₂).inserted = 0 ∧
    (importBulkData stream
        (importBulkData stream st li now₁ end₁ idBase (fun _ => false) (fun _ => false)
          (fun _ => false) false).store (some end₁) now₂ end₂ idBase₂ (fun _ => false)
        (fun _ => false) (fun _ => false) pf₂).updated = 0 ∧
    (importBulkData stream
        (importBulkData stream st li now₁ end₁ idBase (fun _ => false) (fun _ => false)
          (fun _ => false) false).store (some end₁) now₂ end₂ idBase₂ (fun _ => false)
        (fun _ => false) (fun _ => false) pf₂).store =
      (importBulkData stream st li now₁ end₁ idBase (fun _ => false) (fun _ => false)
        (fun _ => false) false).store := by
  have hflat : (buildBatches cards).flatten = cards := by
    simpa [buildBatches] using buildBatchesAux_flatten cards [] []
  have hkeys' : (validKeys (buildBatches cards).flatten).Nodup := by
    rw [hflat]; exact hkeys
  obtain ⟨hwf₁, hmtg₁, habort₁, hpend₁, hest₁, _⟩ :=
    dispatchAux_established li now₁ (buildBatches cards) st 0 idBase [] 0 0 hwf hmtg hkeys'
  have hr₁ : (importBulkData stream st li now₁ end₁ idBase (fun _ => false) (fun _ => false)
        (fun _ => false) false).cursorWrite = some end₁ ∧
      (importBulkData stream st li now₁ end₁ idBase (fun _ => false) (fun _ => false)
        (fun _ => false) false).store =
        (dispatchAux li now₁ (fun _ => false) (fun _ => false) (fun _ => false) st 0 idBase
          [] 0 0 (buildBatches cards)).store := by
    unfold importBulkData
    rw [hdec]
    unfold importAfterDecode
    dsimp only
    rw [habort₁, hpend₁]
    cases hs : importSummary (end₁ - now₁) (end₁ - now₁) (buildBatches cards).length
        cards.length <;>
      exact ⟨rfl, rfl⟩
  rw [hr₁.2]
  refine ⟨hr₁.1, ?_⟩
  have H2 : ∀ b ∈ buildBatches cards, ∀ c ∈ b, validB c = true →
      ¬ cursorSkipped (some end₁) now₂ c →
      Established (dispatchAux li now₁ (fun _ => false) (fun _ => false) (fun _ => false)
        st 0 idBase [] 0 0 (buildBatches cards)).store c := by
    intro b hb c hc hval hncur
    have hcf : c ∈ (buildBatches cards).flatten := List.mem_flatten.mpr ⟨b, hb, hc⟩
    by_cases hcs : cursorSkipped li now₁ c
    · exact absurd (cursorSkipped_mono hclock hcs) hncur
    · exact hest₁ c hcf hval hcs
  have hnoop := dispatchAux_noop (some end₁) now₂ (buildBatches cards)
    (dispatchAux li now₁ (fun _ => false) (fun _ => false) (fun _ => false) st 0 idBase
      [] 0 0 (buildBatches cards)).store 0 idBase₂ [] 0 0 hmtg₁ H2
  unfold importBulkData
  rw [hdec]
  unfold importAfterDecode
  dsimp only
  rw [hnoop]
  cases pf₂ <;>
    cases hs : importSummary (end₂ - now₂) (end₂ - now₂) (buildBatches cards).length
        cards.length <;>
    exact ⟨rfl, rfl, rfl⟩

/-- Witness for C4: a first run over a one-record dataset on an empty
catalog writes the cursor, and the second run over the same dataset inserts
and updates nothing. -/
theorem C4_idempotence_witness :
    (decodeStream [some badDateCard] = .ok [badDateCard] ∧
      (validKeys [badDateCard]).Nodup ∧ StoreWF emptyStore 0 ∧ AllMtgPresent emptyStore ∧
      (∀ p : Int, (none : Option Int) = some p → p < 10 ∧ p ≤ 20)) ∧
    ((importBulkData [some badDateCard] emptyStore none 10 20 0 (fun _ => false)
        (fun _ => false) (fun _ => false) false).cursorWrite = some 20 ∧
      (importBulkData [some badDateCard]
          (importBulkData [some badDateCard] emptyStore none 10 20 0 (fun _ => false)
            (fun _ => false) (fun _ => false) false).store (some 20) 30 40 50 (fun _ => false)
          (fun _ => false) (fun _ => false) false).inserted = 0 ∧
      (importBulkData [some badDateCard]
          (importBulkData [some badDateCard] emptyStore none 10 20 0 (fun _ => false)
            (fun _ => false) (fun _ => false) false).store (some 20) 30 40 50 (fun _ => false)
          (fun _ => false) (fun _ => false) false).updated = 0 ∧
      (importBulkData [some badDateCard]
          (importBulkData [some badDateCard] emptyStore none 10 20 0 (fun _ => false)
            (fun _ => false) (fun _ => false) false).store (some 20) 30 40 50 (fun _ => false)
          (fun _ => false) (fun _ => false) false).store =
        (importBulkData [some badDateCard] emptyStore none 10 20 0 (fun _ => false)
          (fun _ => false) (fun _ => false) false).store) :=
  ⟨⟨rfl, by decide, emptyStore_WF, emptyStore_allMtg, fun p h => Option.noConfusion h⟩,
   C4_idempotence [some badDateCard] [badDateCard] emptyStore none 10 20 30 40 0 50 false
     rfl (by decide) emptyStore_WF emptyStore_allMtg (fun p h => Option.noConfusion h)⟩

/-- Counterexample to the unamended C4: on a catalog holding a base row
named `Old` with no `mtg_cards` row, a first run over the one-record
dataset `[healCard]` (name `New`, unparseable `updated_at`) completes
successfully — it heals the missing `mtg_cards` row — yet the second run
over the identical dataset, reading the cursor the first run wrote,
classifies the record for update: the healed row still carries the stale
base fields, and the date-parse fallback to `time.Now()` bypasses the
cursor check on both runs. -/
theorem C4_idempotence_counterexample :
    (importBulkData [some healCard] healStore none 10 20 5 (fun _ => false) (fun _ => false)
        (fun _ => false) false).result = .ok () ∧
    (importBulkData [some healCard]
        (importBulkData [some healCard] healStore none 10 20 5 (fun _ => false)
          (fun _ => false) (fun _ => false) false).store
        (importBulkData [some healCard] healStore none 10 20 5 (fun _ => false)
          (fun _ => false) (fun _ => false) false).cursorWrite 30 40 6 (fun _ => false)
        (fun _ => false) (fun _ => false) false).updated = 1 :=
  ⟨rfl, by decide⟩

/-- Witness for C5: a malformed stream writes no cursor, and a clean run
writes the run-end time, which is ≥ the previous cursor. -/
theorem C5_cursorMonotonic_witness :
    (importBulkData [none] emptyStore (some 3) 0 5 0 (fun _ => false) (fun _ => false)
        (fun _ => false) false).cursorWrite = none ∧
    (3 : Int) ≤ 5 :=
  ⟨((C5_cursorMonotonic [none] emptyStore (some 3) 0 5 0 (fun _ => false) (fun _ => false)
      (fun _ => false) false).1 (List.mem_singleton.mpr rfl)).1,
   ((C5_cursorMonotonic [some blankCard] emptyStore (some 3) 0 5 0 (fun _ => false)
      (fun _ => false) (fun _ => false) false).2 5 rfl).2 3 rfl (by norm_num)⟩

end CardCraft
